import Mathlib

/-!
Verification development for the mylis_2 Scheme interpreter
(`src/mylis/mylis_2/lis.py`).

The embedding models the interpreter shallowly:

* Python expressions (`Expression: TypeAlias = Atom | list`, line 23) become the
  inductive `Expression`.  Number atoms are modelled as integers; float literals
  are outside the modelled fragment (no claim exercises them), which is noted
  again at `parse_atom`.
* The mutable `Environment(ChainMap)` is modelled with an explicit store:
  dict frames live in a `Store` (a list of frames addressed by position) and an
  environment is the ChainMap structure over frame addresses, so that the
  sharing and in-place mutation of frames between closures is represented
  faithfully.  `ChainMap` does not flatten nested chain maps, hence an
  environment element is either a frame or a nested chain.
* `evaluate`'s `while True:` trampoline loop is modelled with a fuel parameter:
  one unit of fuel is spent per loop iteration and per nested `evaluate` call,
  and `none` means the artificial fuel ran out (Python would simply keep
  running).  All statements about results are conditioned on a `some` result.
* Exceptions become the `Err` sum type; it includes the host-level Python
  exceptions that the interpreter can leak (`KeyError` from
  `Environment.change`, `IndexError` from `expressions[-1]` on an empty list,
  `UnboundLocalError` from returning an unassigned `result`, `TypeError` from
  unhashable dict keys), since those are distinct observable outcomes.
-/

/-- Expression trees produced by the reader (lis.py line 23:
`Expression: TypeAlias = Atom | list`; atoms are numbers or symbols, and the
number fragment modelled here is the integers). -/
inductive Expression where
  | int (n : Int)
  | sym (s : String)
  | list (es : List Expression)

mutual
/-- Structural equality test for expressions (Python `==` on the reader's
int/str/list trees). -/
def beqExpr : Expression → Expression → Bool
  | .int a, .int b => a == b
  | .sym a, .sym b => a == b
  | .list a, .list b => beqExprList a b
  | _, _ => false

/-- Structural equality test for expression lists. -/
def beqExprList : List Expression → List Expression → Bool
  | [], [] => true
  | a :: as, b :: bs => beqExpr a b && beqExprList as bs
  | _, _ => false
end

mutual
theorem beqExpr_iff : ∀ a b : Expression, beqExpr a b = true ↔ a = b
  | .int a, .int b => by simp [beqExpr]
  | .sym a, .sym b => by simp [beqExpr]
  | .list a, .list b => by
      simp only [beqExpr]
      rw [beqExprList_iff a b]
      simp
  | .int _, .sym _ => by simp [beqExpr]
  | .int _, .list _ => by simp [beqExpr]
  | .sym _, .int _ => by simp [beqExpr]
  | .sym _, .list _ => by simp [beqExpr]
  | .list _, .int _ => by simp [beqExpr]
  | .list _, .sym _ => by simp [beqExpr]

theorem beqExprList_iff : ∀ a b : List Expression, beqExprList a b = true ↔ a = b
  | [], [] => by simp [beqExprList]
  | a :: as, b :: bs => by
      simp only [beqExprList, Bool.and_eq_true]
      rw [beqExpr_iff a b, beqExprList_iff as bs]
      simp
  | [], _ :: _ => by simp [beqExprList]
  | _ :: _, [] => by simp [beqExprList]
end

instance : DecidableEq Expression := fun a b =>
  decidable_of_iff (beqExpr a b = true) (beqExpr_iff a b)

/-- Environment structure, mirroring `Environment(ChainMap)` (lis.py line 28).
A ChainMap holds a list `maps` whose elements are either plain dict frames
(identified here by their address in the `Store`) or nested chain maps
(`Environment(local_env, self.definition_env)` puts the whole defining
environment, itself a ChainMap, as the second element of `maps`).  ChainMap
does not flatten this nesting, which matters for `change`. -/
inductive EnvElem where
  | frame (fid : Nat)
  | chain (elems : List EnvElem)

/-- An environment is the `maps` list of a ChainMap. -/
abbrev Env := List EnvElem

/-- Primitive (host-provided) callables from `standard_env` (lis.py lines
64-102).  Only the fragment exercised by the claims is modelled; the table is
an external collaborator per the spec. -/
inductive Prim where
  | add
  | sub
  | mul
  | lt
  | eq
  | notP
deriving DecidableEq

/-- Runtime values: numbers, booleans, symbols (Python strings), lists,
user-defined procedures, primitive callables, and Python's `None` (the result
of `define`/`set!`).  A `Procedure` (lis.py lines 40-58) carries its parameter
list, body and the defining environment captured by reference; the parameter
list is a list of expressions because the patterns `[Symbol(name), *parms]` and
`['lambda', [*parms], *body]` capture arbitrary sub-expressions as `parms`. -/
inductive Value where
  | int (n : Int)
  | bool (b : Bool)
  | sym (s : String)
  | list (vs : List Value)
  | proc (parms : List Expression) (body : List Expression) (defEnv : Env)
  | prim (p : Prim)
  | none

/-- A dict frame: an insertion-ordered association list with unique keys
(Python dict).  Keys are expressions (parameter atoms and symbols). -/
abbrev Frame := List (Expression × Value)

/-- The store of all dict frames ever created; an `EnvElem.frame fid` refers to
position `fid`.  This models Python object identity for the mutable dicts. -/
abbrev Store := List Frame

/-- Dict lookup (`mapping[key]` on a frame). -/
def frameGet : Frame → Expression → Option Value
  | [], _ => Option.none
  | (k, v) :: rest, key => if k = key then some v else frameGet rest key

/-- Dict assignment (`mapping[key] = value` on a frame): overwrite in place if
the key is present, else append a new binding (insertion order). -/
def frameSet : Frame → Expression → Value → Frame
  | [], key, val => [(key, val)]
  | (k, v) :: rest, key, val =>
    if k = key then (k, val) :: rest else (k, v) :: frameSet rest key val

mutual
/-- ChainMap lookup (`ChainMap.__getitem__`): try each element of `maps` in
order; a nested chain map is searched recursively. -/
def lookupElems : List EnvElem → Expression → Store → Option Value
  | [], _, _ => Option.none
  | el :: rest, key, st =>
    match lookupElem el key st with
    | some v => some v
    | Option.none => lookupElems rest key st

/-- Lookup inside one element of a ChainMap's `maps` list. -/
def lookupElem : EnvElem → Expression → Store → Option Value
  | .frame fid, key, st => frameGet (st.getD fid []) key
  | .chain es, key, st => lookupElems es key st
end

/-- Membership test for one `maps` element (`key in map` in
`Environment.change`, line 34). -/
def containsElem (el : EnvElem) (key : Expression) (st : Store) : Bool :=
  (lookupElem el key st).isSome

/-- Errors: the interpreter's exception taxonomy (imported from `exceptions`,
lis.py lines 15-18) plus the host-level Python exceptions the code can leak. -/
inductive Err where
  | unexpectedEndOfSource
  | unexpectedCloseParen
  | undefinedSymbol (s : String)
  | syntaxError (form : String)
  | evaluatorError (form : String)
  | keyError (key : Expression)
  | indexError
  | unboundLocal
  | typeError
deriving DecidableEq

mutual
/-- ChainMap assignment (`ChainMap.__setitem__`): write into `self.maps[0]`.
If `maps[0]` is itself a chain map its own `__setitem__` recurses; an empty
`maps` list would raise a host IndexError (never reachable in this program). -/
def setItem : List EnvElem → Expression → Value → Store → Except Err Store
  | [], _, _, _ => .error .indexError
  | el :: _, key, val, st => setItemElem el key val st

/-- Assignment through one `maps` element: a dict frame is updated in place;
a nested chain map recurses through its own `__setitem__`. -/
def setItemElem : EnvElem → Expression → Value → Store → Except Err Store
  | .frame fid, key, val, st => .ok (st.set fid (frameSet (st.getD fid []) key val))
  | .chain es, key, val, st => setItem es key val st
end

/-- Environment.change (lis.py lines 31-37): iterate over `self.maps`; on the
first element containing `key`, perform `map[key] = value` on that element and
return; if no element contains it, raise `KeyError(key)`.  Note that when the
containing element is a nested chain map, `map[key] = value` is
`ChainMap.__setitem__`, which writes into that chain's first frame — not
necessarily the frame that holds the key. -/
def change : List EnvElem → Expression → Value → Store → Except Err Store
  | [], key, _, _ => .error (.keyError key)
  | el :: rest, key, val, st =>
    if containsElem el key st then setItemElem el key val st
    else change rest key val st

/-- Dict construction `dict(zip(parms, args))` (lis.py line 51): insert the
zipped pairs in order (`zip` truncates to the shorter list; a repeated key
keeps its first position and takes the last value).  A list used as a key is
unhashable and raises a host TypeError. -/
def dictOfPairs : Frame → List (Expression × Value) → Except Err Frame
  | fr, [] => .ok fr
  | fr, (k, v) :: rest =>
    match k with
    | .list _ => .error .typeError
    | _ => dictOfPairs (frameSet fr k v) rest

/-- Procedure.application_env (lis.py lines 50-52): build
`local_env = dict(zip(self.parms, args))` as a fresh frame (appended to the
store at the fresh address `st.length`) and return
`Environment(local_env, self.definition_env)`, whose `maps` list is the new
frame followed by the whole defining environment as one nested element. -/
def application_env (parms : List Expression) (args : List Value) (defEnv : Env)
    (st : Store) : Except Err (Env × Store) :=
  (dictOfPairs [] (parms.zip args)).map fun local_env =>
    ([.frame st.length, .chain defEnv], st ++ [local_env])

/-- Python truthiness (`bool(x)`) for the value types that occur: zero numbers,
`False`, the empty string, the empty list and `None` are falsy. -/
def truthy : Value → Bool
  | .int n => n != 0
  | .bool b => b
  | .sym s => s != ""
  | .list vs => !vs.isEmpty
  | .proc _ _ _ => true
  | .prim _ => true
  | .none => false

mutual
/-- View of a quoted expression as a value (`(quote exp)` returns the reader's
tree unevaluated; in Python both live in the same dynamic type). -/
def exprToValue : Expression → Value
  | .int n => .int n
  | .sym s => .sym s
  | .list es => .list (exprListToValue es)

/-- Pointwise `exprToValue` on expression lists. -/
def exprListToValue : List Expression → List Value
  | [] => []
  | e :: rest => exprToValue e :: exprListToValue rest
end

/-- Numeric view used by the arithmetic primitives: Python `bool` is an `int`
subclass, so `True`/`False` count as `1`/`0`. -/
def toNum : Value → Option Int
  | .int n => some n
  | .bool b => some (if b then 1 else 0)
  | _ => Option.none

mutual
/-- Python `==` (`op.eq`) on the value types that occur.  Numbers compare
across `int`/`bool`; lists compare pointwise; procedures compare by object
identity in Python, which is approximated by `false` here (two syntactically
given procedure values are distinct objects; no claim compares procedures). -/
def valueEq : Value → Value → Bool
  | .int x, .int y => x == y
  | .int x, .bool y => x == (if y then 1 else 0)
  | .bool x, .int y => (if x then (1 : Int) else 0) == y
  | .bool x, .bool y => x == y
  | .sym x, .sym y => x == y
  | .list xs, .list ys => valueEqList xs ys
  | .prim p, .prim q => p == q
  | .none, .none => true
  | _, _ => false

/-- Pointwise Python `==` on lists. -/
def valueEqList : List Value → List Value → Bool
  | [], [] => true
  | x :: xs, y :: ys => valueEq x y && valueEqList xs ys
  | _, _ => false
end

/-- Invocation of a primitive callable (the `proc(*values)` branch, lis.py
line 262).  `none` models a host TypeError (wrong argument count or
incompatible types), which `evaluate` wraps into an `EvaluatorException`.
`op.add` also concatenates strings and lists (`append` is the same `op.add`);
comparisons/multiplication are modelled on numbers only, the fragment the
claims use. -/
def applyPrim : Prim → List Value → Option Value
  | .add, [a, b] =>
    (match a, b with
     | .sym x, .sym y => some (.sym (x ++ y))
     | .list xs, .list ys => some (.list (xs ++ ys))
     | _, _ =>
       match toNum a, toNum b with
       | some x, some y => some (.int (x + y))
       | _, _ => Option.none)
  | .sub, [a, b] =>
    (match toNum a, toNum b with
     | some x, some y => some (.int (x - y))
     | _, _ => Option.none)
  | .mul, [a, b] =>
    (match toNum a, toNum b with
     | some x, some y => some (.int (x * y))
     | _, _ => Option.none)
  | .lt, [a, b] =>
    (match toNum a, toNum b with
     | some x, some y => some (.bool (x < y))
     | _, _ => Option.none)
  | .eq, [a, b] => some (.bool (valueEq a b))
  | .notP, [a] => some (.bool (!truthy a))
  | _, _ => Option.none

/-- KEYWORDS_1 (lis.py line 205). -/
def KEYWORDS_1 : List String := ["quote", "if", "define", "lambda"]

/-- KEYWORDS_2 (lis.py line 206). -/
def KEYWORDS_2 : List String := ["set!", "cond", "or", "and", "begin"]

/-- KEYWORDS (lis.py line 207). -/
def KEYWORDS : List String := KEYWORDS_1 ++ KEYWORDS_2

/-- Test `op in KEYWORDS` (guard on lis.py line 254); `in` compares by
equality, and a non-string head never equals a keyword string. -/
def isKeywordOp : Expression → Bool
  | .sym s => KEYWORDS.contains s
  | _ => false

/-- TCO_ENABLED flag (lis.py line 25). -/
def TCO_ENABLED : Bool := true

/-- The one-character quote-shorthand token (the second alternative of the
pattern on lis.py line 225), written via its character code 39. -/
def tickStr : String := ⟨[Char.ofNat 39]⟩

/-- Decimal digits of a natural number, most significant first (fuelled
helper; the fuel `n + 1` always suffices since `n / 10 < n` for `n > 0`). -/
def natToCharsAux : Nat → Nat → List Char
  | 0, _ => []
  | fuel + 1, n =>
    if n = 0 then [] else natToCharsAux fuel (n / 10) ++ [Nat.digitChar (n % 10)]

/-- Decimal rendering of a natural number (Python `str` on a non-negative
int). -/
def natToChars (n : Nat) : List Char :=
  if n = 0 then ['0'] else natToCharsAux (n + 1) n

/-- Python `str` on an int: minus sign for negatives, decimal digits. -/
def intToStr (n : Int) : String :=
  if n < 0 then ⟨'-' :: natToChars n.natAbs⟩ else ⟨natToChars n.natAbs⟩

/-- Python `' '.join(...)` (lis.py line 163): items separated by single
spaces. -/
def joinSpace : List String → String
  | [] => ""
  | [s] => s
  | s :: s2 :: rest => s ++ " " ++ joinSpace (s2 :: rest)

mutual
/-- Printer `lispstr` (lis.py lines 160-165): a list renders as the
space-joined rendering of its items between parentheses; atoms render with
Python `str` (decimal for integers, identity on symbol strings). -/
def lispstr : Expression → String
  | .int n => intToStr n
  | .sym s => s
  | .list es => "(" ++ joinSpace (lispstrList es) ++ ")"

/-- Pointwise `lispstr` (the `map(lispstr, exp)` on lis.py line 163). -/
def lispstrList : List Expression → List String
  | [] => []
  | e :: rest => lispstr e :: lispstrList rest
end

/-- Result type of one `evaluate` step: `none` when the artificial fuel ran
out, otherwise the raised error or the value paired with the updated store. -/
abbrev EvalM := Option (Except Err (Value × Store))

/-- Sequencing for fuelled, store-passing, exception-raising computations:
fuel exhaustion and raised exceptions propagate. -/
def bindE {σ α β : Type} (x : Option (Except Err (α × σ)))
    (k : α → σ → Option (Except Err (β × σ))) : Option (Except Err (β × σ)) :=
  match x with
  | Option.none => Option.none
  | some (.error e) => some (.error e)
  | some (.ok (a, s)) => k a s

/-- Evaluation of the argument forms of an application, left to right
(`[evaluate(arg, env) for arg in args]`, lis.py line 256).  The parameter `ev`
is the recursive evaluator at the current fuel. -/
def evalArgs (ev : Expression → Env → Store → EvalM) :
    List Expression → Env → Store → Option (Except Err (List Value × Store))
  | [], _, st => some (.ok ([], st))
  | e :: rest, env, st =>
    bindE (ev e env st) fun v st1 =>
      bindE (evalArgs ev rest env st1) fun vs st2 => some (.ok (v :: vs, st2))

/-- Body loop of a matched `cond` clause (lis.py lines 175-177 and 179-181):
`for exp in body: result = evaluate(exp, env)` then `return result`.  An empty
body returns the unassigned local `result`, a host UnboundLocalError. -/
def clause_body (ev : Expression → Env → Store → EvalM) :
    List Expression → Env → Store → EvalM
  | [], _, _ => some (.error .unboundLocal)
  | [e], env, st => ev e env st
  | e :: e2 :: rest, env, st =>
    bindE (ev e env st) fun _ st1 => clause_body ev (e2 :: rest) env st1

/-- cond_form (lis.py lines 170-181): scan the clauses in order; `(else …)`
always matches, `(test …)` matches when `test` evaluates truthy; a clause of
any other shape is skipped; falling off the loop returns Python `None`. -/
def cond_form (ev : Expression → Env → Store → EvalM) :
    List Expression → Env → Store → EvalM
  | [], _, st => some (.ok (.none, st))
  | clause :: rest, env, st =>
    match clause with
    | .list (.sym "else" :: body) => clause_body ev body env st
    | .list (test :: body) =>
      bindE (ev test env st) fun tv st1 =>
        if truthy tv then clause_body ev body env st1
        else cond_form ev rest env st1
    | _ => cond_form ev rest env st

/-- or_form (lis.py lines 184-191): `value = False`, then evaluate each
expression in turn, returning the first truthy value immediately; otherwise
return the last value evaluated (or the initial `False`). -/
def or_form (ev : Expression → Env → Store → EvalM) :
    List Expression → Env → Store → EvalM
  | [], _, st => some (.ok (.bool false, st))
  | e :: rest, env, st =>
    bindE (ev e env st) fun v st1 =>
      if truthy v then some (.ok (v, st1))
      else
        match rest with
        | [] => some (.ok (v, st1))
        | _ :: _ => or_form ev rest env st1

/-- and_form (lis.py lines 194-201): `value = True`, then evaluate each
expression in turn, returning the first falsy value immediately; otherwise
return the last value evaluated (or the initial `True`). -/
def and_form (ev : Expression → Env → Store → EvalM) :
    List Expression → Env → Store → EvalM
  | [], _, st => some (.ok (.bool true, st))
  | e :: rest, env, st =>
    bindE (ev e env st) fun v st1 =>
      if !truthy v then some (.ok (v, st1))
      else
        match rest with
        | [] => some (.ok (v, st1))
        | _ :: _ => and_form ev rest env st1

/-- The `begin` arm of `evaluate` (lis.py lines 250-253): evaluate all but the
last expression, then continue the trampoline loop on the last one (modelled
as one more `ev` step).  `(begin)` takes `expressions[-1]` of an empty list, a
host IndexError. -/
def begin_form (ev : Expression → Env → Store → EvalM) :
    List Expression → Env → Store → EvalM
  | [], _, _ => some (.error .indexError)
  | [e], env, st => ev e env st
  | e :: e2 :: rest, env, st =>
    bindE (ev e env st) fun _ st1 => begin_form ev (e2 :: rest) env st1

/-- Body loop of `Procedure.__call__` (lis.py lines 56-58): `for exp in
self.body: result = evaluate(exp, env)` then `return result`; an empty body
returns the unassigned local `result`, a host UnboundLocalError. -/
def call_body (ev : Expression → Env → Store → EvalM) :
    List Expression → Env → Store → EvalM
  | [], _, _ => some (.error .unboundLocal)
  | [e], env, st => ev e env st
  | e :: e2 :: rest, env, st =>
    bindE (ev e env st) fun _ st1 => call_body ev (e2 :: rest) env st1

/-- Procedure.__call__ (lis.py lines 54-58): build the application environment
and evaluate the body expressions in order, returning the last result.  This
is the non-trampolined call path (reached only when TCO is disabled). -/
def procedureCall (ev : Expression → Env → Store → EvalM)
    (parms body : List Expression) (defEnv : Env) (args : List Value)
    (st : Store) : EvalM :=
  match application_env parms args defEnv st with
  | .error e => some (.error e)
  | .ok (env2, st2) => call_body ev body env2 st2

/-- Application / default arm of `evaluate` (lis.py lines 254-268): a form
whose head is a reserved keyword (wrong shape for its special form) falls to
the default case and raises `InvalidSyntax(lispstr(exp))`; otherwise evaluate
the head and the arguments; a `Procedure` is applied by rewriting the loop
state to `exp = ['begin', *proc.body]` and `env = proc.application_env(values)`
(the trampoline, since TCO_ENABLED holds); any other callable is invoked
directly, a TypeError being wrapped into an `EvaluatorException`. -/
def applyForm (ev : Expression → Env → Store → EvalM) (op : Expression)
    (args : List Expression) (env : Env) (st : Store) : EvalM :=
  if isKeywordOp op then some (.error (.syntaxError (lispstr (.list (op :: args)))))
  else
    bindE (ev op env st) fun procv st1 =>
      bindE (evalArgs ev args env st1) fun vs st2 =>
        match procv with
        | .proc parms body defEnv =>
          if TCO_ENABLED then
            match application_env parms vs defEnv st2 with
            | .ok (env2, st3) => ev (.list (.sym "begin" :: body)) env2 st3
            | .error er => some (.error er)
          else procedureCall ev parms body defEnv vs st2
        | .prim p =>
          (match applyPrim p vs with
           | some v => some (.ok (v, st2))
           | Option.none => some (.error (.evaluatorError (lispstr (.list (op :: args))))))
        | _ => some (.error (.evaluatorError (lispstr (.list (op :: args)))))

/-- evaluate (lis.py lines 214-268): the trampoline loop, dispatching on the
shape of the current expression.  The Python `match` tries its cases in
source order; since every special-form case requires a distinct literal head
symbol, the dispatch is rendered as a comparison chain on the head, each
keyword then checking the shapes of its own cases in source order, with
non-matching shapes falling through to the application/default arm
(`applyForm`).  The quote-shorthand head (not a reserved keyword) is tested
just before the application arm, which is order-equivalent because no arm
between the quote case and the application case can match a form whose head
is that token.  One unit of fuel is spent per loop iteration and per nested
recursive call. -/
def evaluate : Nat → Expression → Env → Store → EvalM
  | 0, _, _, _ => Option.none
  | fuel + 1, exp, env, st =>
    match exp with
    | .int n => some (.ok (.int n, st))
    | .sym v =>
      (match lookupElems env (.sym v) st with
       | some val => some (.ok (val, st))
       | Option.none => some (.error (.undefinedSymbol v)))
    | .list [] => some (.error (.syntaxError (lispstr (.list []))))
    | .list (head :: rest) =>
      match head with
      | .sym s =>
        if s = "quote" then
          match rest with
          | [x] => some (.ok (exprToValue x, st))
          | _ => applyForm (fun e en s1 => evaluate fuel e en s1) head rest env st
        else if s = "if" then
          match rest with
          | [t, c, a] =>
            bindE (evaluate fuel t env st) fun tv st1 =>
              if truthy tv then evaluate fuel c env st1
              else evaluate fuel a env st1
          | _ => applyForm (fun e en s1 => evaluate fuel e en s1) head rest env st
        else if s = "define" then
          match rest with
          | [.sym v, value_exp] =>
            bindE (evaluate fuel value_exp env st) fun val st1 =>
              (match setItem env (.sym v) val st1 with
               | .ok st2 => some (.ok (.none, st2))
               | .error er => some (.error er))
          | .list (.sym name :: parms) :: body =>
            (match body with
             | [] => applyForm (fun e en s1 => evaluate fuel e en s1) head rest env st
             | _ :: _ =>
               match setItem env (.sym name) (.proc parms body env) st with
               | .ok st1 => some (.ok (.none, st1))
               | .error er => some (.error er))
          | _ => applyForm (fun e en s1 => evaluate fuel e en s1) head rest env st
        else if s = "set!" then
          match rest with
          | [.sym v, value_exp] =>
            bindE (evaluate fuel value_exp env st) fun val st1 =>
              (match change env (.sym v) val st1 with
               | .ok st2 => some (.ok (.none, st2))
               | .error er => some (.error er))
          | _ => applyForm (fun e en s1 => evaluate fuel e en s1) head rest env st
        else if s = "lambda" then
          match rest with
          | .list parms :: body =>
            (match body with
             | [] => applyForm (fun e en s1 => evaluate fuel e en s1) head rest env st
             | _ :: _ => some (.ok (.proc parms body env, st)))
          | _ => applyForm (fun e en s1 => evaluate fuel e en s1) head rest env st
        else if s = "cond" then cond_form (fun e en s1 => evaluate fuel e en s1) rest env st
        else if s = "or" then or_form (fun e en s1 => evaluate fuel e en s1) rest env st
        else if s = "and" then and_form (fun e en s1 => evaluate fuel e en s1) rest env st
        else if s = "begin" then begin_form (fun e en s1 => evaluate fuel e en s1) rest env st
        else if s = tickStr then
          match rest with
          | [x] => some (.ok (exprToValue x, st))
          | _ => applyForm (fun e en s1 => evaluate fuel e en s1) head rest env st
        else applyForm (fun e en s1 => evaluate fuel e en s1) head rest env st
      | _ => applyForm (fun e en s1 => evaluate fuel e en s1) head rest env st

/-- Accumulate a decimal number from digit characters; any non-digit
character fails (Python `int()` on the token, restricted to an optional sign
followed by ASCII digits; underscores between digits, surrounding whitespace
and unicode digits, which Python would also accept, are not modelled — no
token produced by the tokenizer from the claims' inputs uses them). -/
def parseDigitsGo : List Char → Nat → Option Nat
  | [], acc => some acc
  | c :: rest, acc =>
    if c.isDigit then parseDigitsGo rest (acc * 10 + (c.toNat - 48)) else Option.none

/-- Parse a non-empty all-digit character list as a natural number. -/
def parseDigits : List Char → Option Nat
  | [] => Option.none
  | c :: rest => parseDigitsGo (c :: rest) 0

/-- Attempted `int(token)` (first branch of parse_atom, lis.py line 140) on
the ASCII fragment: an optional single sign followed by at least one ASCII
digit.  Python's `int()` additionally accepts surrounding whitespace,
underscore group separators and non-ASCII Unicode decimal digits; no such
character occurs in the strings the claims quantify over (canonical integer
renderings are a `-` sign and ASCII digits, and `SimpleTok` tokens are
digit-free printable ASCII, on which `int()` raises ValueError just as this
returns none). -/
def intParse : List Char → Option Int
  | [] => Option.none
  | c :: rest =>
    if c = '-' then (parseDigits rest).map fun n => -(n : Int)
    else if c = '+' then (parseDigits rest).map fun n => (n : Int)
    else (parseDigits (c :: rest)).map fun n => (n : Int)

/-- parse_atom (lis.py lines 137-145): numbers become numbers, every other
token is a symbol.  The float layer (`float(token)`, line 143) is outside the
modelled fragment: tokens that Python would parse as floats (digits with a
dot or exponent, inf/nan spellings) are treated as symbols here, and the
canonical-form class used for the round-trip claim excludes them. -/
def parse_atom (token : String) : Expression :=
  match intParse token.data with
  | some n => .int n
  | Option.none => .sym token

/-- Per-character expansion implementing
`s.replace('(', ' ( ').replace(')', ' ) ')` (lis.py line 115): the two
single-character replacements are disjoint, so they act as one simultaneous
character-wise expansion. -/
def expandChar (c : Char) : List Char :=
  if c = '(' then [' ', '(', ' ']
  else if c = ')' then [' ', ')', ' ']
  else [c]

/-- Expansion of a whole character list. -/
def expandParens : List Char → List Char
  | [] => []
  | c :: rest => expandChar c ++ expandParens rest

/-- The exact set of characters Python's `str.split()` (with no arguments)
treats as whitespace: the 29 code points on which CPython's
`Py_UNICODE_ISSPACE` holds — ASCII whitespace and separator controls plus
NEL, NBSP and the Unicode space/line/paragraph separators. -/
def pythonWs : List Char :=
  ['\t', '\n', '\u000b', '\u000c', '\r',
   '\u001c', '\u001d', '\u001e', '\u001f', ' ',
   '\u0085', '\u00a0', '\u1680',
   '\u2000', '\u2001', '\u2002', '\u2003', '\u2004', '\u2005',
   '\u2006', '\u2007', '\u2008', '\u2009', '\u200a',
   '\u2028', '\u2029', '\u202f', '\u205f', '\u3000']

/-- Whitespace test for `str.split()`: membership in the exact CPython
whitespace set. -/
def isWs (c : Char) : Bool :=
  pythonWs.contains c

/-- Splitting on whitespace runs with no empty tokens (Python `str.split()`
with no arguments); `cur` accumulates the current token. -/
def splitWsAux : List Char → List Char → List (List Char)
  | [], cur => if cur.isEmpty then [] else [cur]
  | c :: rest, cur =>
    if isWs c then
      (if cur.isEmpty then splitWsAux rest [] else cur :: splitWsAux rest [])
    else splitWsAux rest (cur ++ [c])

/-- tokenize (lis.py lines 113-115): surround parentheses with spaces, then
split on whitespace. -/
def tokenize (s : String) : List String :=
  (splitWsAux (expandParens s.data) []).map fun cs => ⟨cs⟩

mutual
/-- read_from_tokens (lis.py lines 118-134), with the mutable token cursor
made explicit: the remaining tokens are returned alongside the expression.
An exhausted cursor raises UnexpectedEndOfSource; `(` reads a list; a stray
`)` raises UnexpectedCloseParen; anything else is an atom.  The fuel only
bounds the recursion depth; `2 * tokens.length + 2` always suffices. -/
def read_from_tokens : Nat → List String → Option (Except Err (Expression × List String))
  | 0, _ => Option.none
  | fuel + 1, tokens =>
    match tokens with
    | [] => some (.error .unexpectedEndOfSource)
    | token :: rest =>
      if token = "(" then
        bindE (read_list fuel rest) fun es rest2 => some (.ok (.list es, rest2))
      else if token = ")" then some (.error .unexpectedCloseParen)
      else some (.ok (parse_atom token, rest))

/-- The list-reading loop of read_from_tokens (lis.py lines 124-130):
`while tokens and tokens[0] != ')'` append one expression; an emptied cursor
raises UnexpectedEndOfSource; the closing `)` is consumed and discarded. -/
def read_list : Nat → List String → Option (Except Err (List Expression × List String))
  | 0, _ => Option.none
  | fuel + 1, tokens =>
    match tokens with
    | [] => some (.error .unexpectedEndOfSource)
    | token :: rest =>
      if token = ")" then some (.ok ([], rest))
      else
        bindE (read_from_tokens fuel (token :: rest)) fun e rest2 =>
          bindE (read_list fuel rest2) fun es rest3 => some (.ok (e :: es, rest3))
end

/-- parse (lis.py lines 108-110): tokenize, then read exactly one expression;
trailing tokens are silently ignored (a known limitation, spec §4.2).  The
fuel `2 * toks.length + 2` can never be exhausted (every two recursion steps
consume a token), so the `none` fallback is unreachable. -/
def parse (source : String) : Except Err Expression :=
  let toks := tokenize source
  match read_from_tokens (2 * toks.length + 2) toks with
  | some (.ok (e, _)) => .ok e
  | some (.error er) => .error er
  | Option.none => .error .unexpectedEndOfSource

/-- Arithmetic fragment of standard_env (lis.py lines 64-102) as the global
frame: the full table (math module, list operations, …) is an external
collaborator injected into the root environment; only the entries the claims
exercise are modelled. -/
def standard_frame : Frame :=
  [(.sym "+", .prim .add), (.sym "-", .prim .sub), (.sym "*", .prim .mul),
   (.sym "<", .prim .lt), (.sym "=", .prim .eq), (.sym "not", .prim .notP)]

/-- The global environment: `standard_env()` returns an Environment whose
`maps` list is a single dict frame (stored at address 0). -/
def globalEnv : Env := [.frame 0]

/-- The store as it stands right after `standard_env()`. -/
def globalStore : Store := [standard_frame]

/-- Top-level evaluation of successive forms in one environment, as the REPL
loop does (lis.py lines 151-157, printing aside): each form is evaluated in
turn and the last result is returned. -/
def runProgram (fuel : Nat) : List Expression → Env → Store → EvalM
  | [], _, st => some (.ok (.none, st))
  | [e], env, st => evaluate fuel e env st
  | e :: e2 :: rest, env, st =>
    bindE (evaluate fuel e env st) fun _ st1 => runProgram fuel (e2 :: rest) env st1

/-! ## General lemmas about the evaluation monad -/

@[simp] theorem bindE_none {σ α β : Type} (k : α → σ → Option (Except Err (β × σ))) :
    bindE Option.none k = Option.none := rfl

@[simp] theorem bindE_error {σ α β : Type} (e : Err) (k : α → σ → Option (Except Err (β × σ))) :
    bindE (some (.error e)) k = some (.error e) := rfl

@[simp] theorem bindE_ok {σ α β : Type} (a : α) (s : σ) (k : α → σ → Option (Except Err (β × σ))) :
    bindE (some (.ok (a, s))) k = k a s := rfl

/-- On a non-empty body, the `begin` arm of the trampoline and the body loop
of `Procedure.__call__` run the same sequence of evaluations (they differ only
on the empty list: host IndexError versus host UnboundLocalError). -/
theorem begin_form_eq_call_body (ev : Expression → Env → Store → EvalM) :
    ∀ (body : List Expression), body ≠ [] → ∀ env st,
      begin_form ev body env st = call_body ev body env st
  | [], h => absurd rfl h
  | [e], _ => fun env st => rfl
  | e :: e2 :: rest, _ => by
      intro env st
      simp only [begin_form, call_body]
      cases ev e env st with
      | none => rfl
      | some r =>
        cases r with
        | error er => rfl
        | ok p =>
          obtain ⟨v, st1⟩ := p
          simpa using begin_form_eq_call_body ev (e2 :: rest) (by simp) env st1

/-! ## C10 -/

/-- C10: evaluating `(begin)` — a list containing only the symbol `begin` —
matches the `begin` rule, and taking `expressions[-1]` of the empty expression
list raises a host IndexError; the result is never `InvalidSyntax`. -/
theorem c10_begin_empty (fuel : Nat) (env : Env) (st : Store) :
    evaluate (fuel + 1) (.list [.sym "begin"]) env st = some (.error .indexError) ∧
    ∀ msg, evaluate (fuel + 1) (.list [.sym "begin"]) env st
        ≠ some (.error (.syntaxError msg)) := by
  constructor
  · simp [evaluate, begin_form]
  · intro msg
    simp [evaluate, begin_form]

/-! ## C2 -/

/-- C2: applying a user-defined `Procedure` through the trampoline is the same
as calling it directly.  First conjunct: in the application arm (lis.py lines
254-262), once the head has evaluated to a `Procedure` and the arguments to
`vs`, the loop state is rewritten to `exp = ['begin', *proc.body]` and
`env = proc.application_env(vs)` and the loop continues (TCO is enabled).
Second conjunct: for a non-empty body, continuing the loop from that rewritten
state produces the same result as `Procedure.__call__`, which evaluates the
body expressions in order in the application environment and returns the last
result. -/
theorem c2_trampoline_eq_call :
    (∀ (ev : Expression → Env → Store → EvalM) (op : Expression)
        (args : List Expression) env st (parms body : List Expression) defEnv
        (vs : List Value) st1 st2,
        isKeywordOp op = false →
        ev op env st = some (.ok (.proc parms body defEnv, st1)) →
        evalArgs ev args env st1 = some (.ok (vs, st2)) →
        applyForm ev op args env st
          = (match application_env parms vs defEnv st2 with
             | .ok (env2, st3) => ev (.list (.sym "begin" :: body)) env2 st3
             | .error er => some (.error er))) ∧
    (∀ (fuel : Nat) (parms body : List Expression) (defEnv : Env)
        (args : List Value) (st : Store) (env2 : Env) (st2 : Store),
        body ≠ [] →
        application_env parms args defEnv st = .ok (env2, st2) →
        evaluate (fuel + 1) (.list (.sym "begin" :: body)) env2 st2
          = procedureCall (fun e en s1 => evaluate fuel e en s1)
              parms body defEnv args st) := by
  constructor
  · intro ev op args env st parms body defEnv vs st1 st2 hkw hop hargs
    rw [applyForm, hkw]
    simp only [Bool.false_eq_true, if_false, hop, bindE_ok, hargs]
    rw [show TCO_ENABLED = true from rfl]
    simp
  · intro fuel parms body defEnv args st env2 st2 hbody happ
    rw [procedureCall, happ]
    have hstep : evaluate (fuel + 1) (.list (.sym "begin" :: body)) env2 st2
        = begin_form (fun e en s1 => evaluate fuel e en s1) body env2 st2 := by
      simp [evaluate]
    rw [hstep, begin_form_eq_call_body _ body hbody]

/-- Witness for C2: the application arm on `(f 4)` with `f` bound to the
identity procedure rewrites into the begin form of the body, and that begin
form equals the direct `Procedure.__call__` result. -/
theorem c2_witness :
    (applyForm (fun e en s1 => evaluate 5 e en s1) (.sym "f") [.int 4]
        [.frame 1, .chain [.frame 0]]
        [standard_frame, [(Expression.sym "f",
          Value.proc [.sym "x"] [.sym "x"] [.frame 0])]]
      = (match application_env [Expression.sym "x"] [Value.int 4] [.frame 0]
            [standard_frame, [(Expression.sym "f",
              Value.proc [.sym "x"] [.sym "x"] [.frame 0])]] with
         | .ok (env2, st3) =>
              evaluate 5 (.list [.sym "begin", .sym "x"]) env2 st3
         | .error er => some (.error er))) ∧
    (evaluate 6 (.list [.sym "begin", .sym "x"]) [.frame 1, .chain [.frame 0]]
        [standard_frame, [(.sym "x", .int 4)]]
      = procedureCall (fun e en s1 => evaluate 5 e en s1) [.sym "x"] [.sym "x"]
          [.frame 0] [.int 4] [standard_frame]) := by
  constructor
  · exact c2_trampoline_eq_call.1 (fun e en s1 => evaluate 5 e en s1) (.sym "f")
      [.int 4] [.frame 1, .chain [.frame 0]]
      [standard_frame, [(Expression.sym "f",
        Value.proc [.sym "x"] [.sym "x"] [.frame 0])]]
      [.sym "x"] [.sym "x"] [.frame 0] [.int 4] _ _ rfl rfl rfl
  · exact c2_trampoline_eq_call.2 5 [.sym "x"] [.sym "x"] [.frame 0] [.int 4]
      [standard_frame] [.frame 1, .chain [.frame 0]]
      [standard_frame, [(.sym "x", .int 4)]] (by simp) rfl

/-! ## C5 -/

/-- C5: `(or exp…)` evaluates left to right, returns the first truthy value
immediately — regardless of what the remaining expressions are, so they are
never evaluated — returns the last (falsy) value when all are falsy, and
returns `False` on the empty list; dually `(and exp…)` returns the first falsy
value immediately, the last value when all are truthy, and `True` on the
empty list.  The first two conjuncts link the `or`/`and` arms of `evaluate`
to `or_form`/`and_form`. -/
theorem c5_or_and :
    (∀ fuel (exprs : List Expression) env st,
        evaluate (fuel + 1) (.list (.sym "or" :: exprs)) env st
          = or_form (fun e en s1 => evaluate fuel e en s1) exprs env st) ∧
    (∀ fuel (exprs : List Expression) env st,
        evaluate (fuel + 1) (.list (.sym "and" :: exprs)) env st
          = and_form (fun e en s1 => evaluate fuel e en s1) exprs env st) ∧
    (∀ ev env st, or_form ev [] env st = some (.ok (.bool false, st))) ∧
    (∀ ev (e : Expression) (rest : List Expression) env st v st1,
        ev e env st = some (.ok (v, st1)) → truthy v = true →
        or_form ev (e :: rest) env st = some (.ok (v, st1))) ∧
    (∀ ev (e : Expression) (rest : List Expression) env st v st1,
        ev e env st = some (.ok (v, st1)) → truthy v = false →
        or_form ev (e :: rest) env st
          = (match rest with
             | [] => some (.ok (v, st1))
             | _ :: _ => or_form ev rest env st1)) ∧
    (∀ ev env st, and_form ev [] env st = some (.ok (.bool true, st))) ∧
    (∀ ev (e : Expression) (rest : List Expression) env st v st1,
        ev e env st = some (.ok (v, st1)) → truthy v = false →
        and_form ev (e :: rest) env st = some (.ok (v, st1))) ∧
    (∀ ev (e : Expression) (rest : List Expression) env st v st1,
        ev e env st = some (.ok (v, st1)) → truthy v = true →
        and_form ev (e :: rest) env st
          = (match rest with
             | [] => some (.ok (v, st1))
             | _ :: _ => and_form ev rest env st1)) := by
  refine ⟨?_, ?_, ?_, ?_, ?_, ?_, ?_, ?_⟩
  · intro fuel exprs env st; simp [evaluate]
  · intro fuel exprs env st; simp [evaluate]
  · intro ev env st; rfl
  · intro ev e rest env st v st1 h ht
    simp [or_form, h, ht]
  · intro ev e rest env st v st1 h ht
    cases rest <;> simp [or_form, h, ht]
  · intro ev env st; rfl
  · intro ev e rest env st v st1 h ht
    simp [and_form, h, ht]
  · intro ev e rest env st v st1 h ht
    cases rest <;> simp [and_form, h, ht]

/-- Witness for C5: `(or 0 7)` yields `7`; a truthy first value short-circuits
past an unbound symbol; `(and 1 0 boom)` stops at `0` without evaluating
`boom`. -/
theorem c5_witness :
    or_form (fun e en s1 => evaluate 1 e en s1) [Expression.int 7, .sym "boom"]
        globalEnv globalStore = some (.ok (.int 7, globalStore)) ∧
    and_form (fun e en s1 => evaluate 1 e en s1) [Expression.int 0, .sym "boom"]
        globalEnv globalStore = some (.ok (.int 0, globalStore)) ∧
    or_form (fun e en s1 => evaluate 1 e en s1) ([] : List Expression)
        globalEnv globalStore = some (.ok (.bool false, globalStore)) := by
  refine ⟨?_, ?_, ?_⟩
  · exact c5_or_and.2.2.2.1 _ (.int 7) [.sym "boom"] globalEnv globalStore
      (.int 7) globalStore rfl rfl
  · exact c5_or_and.2.2.2.2.2.2.1 _ (.int 0) [.sym "boom"] globalEnv globalStore
      (.int 0) globalStore rfl rfl
  · exact c5_or_and.2.2.1 _ globalEnv globalStore

/-! ## C8 -/

/-- C8: `(cond clause…)` examines clauses in order; `(else body…)` always
matches, `(test body…)` matches when its test evaluates truthy; the first
matching clause's body expressions are evaluated in order with the last value
returned; and when no clause matches `cond_form` falls off its loop and
returns Python `None`, which is not a falsy boolean value (it is a distinct
"no value" result).  The first conjunct links the `cond` arm of `evaluate`
to `cond_form`. -/
theorem c8_cond :
    (∀ fuel (clauses : List Expression) env st,
        evaluate (fuel + 1) (.list (.sym "cond" :: clauses)) env st
          = cond_form (fun e en s1 => evaluate fuel e en s1) clauses env st) ∧
    (∀ ev env st, cond_form ev [] env st = some (.ok (Value.none, st))) ∧
    (∀ ev (body rest : List Expression) env st,
        cond_form ev (.list (.sym "else" :: body) :: rest) env st
          = clause_body ev body env st) ∧
    (∀ ev (test : Expression) (body rest : List Expression) env st v st1,
        test ≠ .sym "else" →
        ev test env st = some (.ok (v, st1)) → truthy v = true →
        cond_form ev (.list (test :: body) :: rest) env st
          = clause_body ev body env st1) ∧
    (∀ ev (test : Expression) (body rest : List Expression) env st v st1,
        test ≠ .sym "else" →
        ev test env st = some (.ok (v, st1)) → truthy v = false →
        cond_form ev (.list (test :: body) :: rest) env st
          = cond_form ev rest env st1) ∧
    (∀ ev (e : Expression) env st, clause_body ev [e] env st = ev e env st) ∧
    (∀ ev (e e2 : Expression) (rest : List Expression) env st,
        clause_body ev (e :: e2 :: rest) env st
          = bindE (ev e env st) fun _ st1 => clause_body ev (e2 :: rest) env st1) ∧
    (Value.none ≠ Value.bool false ∧ truthy Value.none = false) := by
  refine ⟨?_, ?_, ?_, ?_, ?_, ?_, ?_, by simp, rfl⟩
  · intro fuel clauses env st; simp [evaluate]
  · intro ev env st; rfl
  · intro ev body rest env st; rfl
  · intro ev test body rest env st v st1 hne h ht
    match test, hne with
    | .int n, _ => simp [cond_form, h, ht]
    | .list es, _ => simp [cond_form, h, ht]
    | .sym s, hne =>
      have hs : ¬s = "else" := fun hh => hne (by rw [hh])
      simp [cond_form, hs, h, ht]
  · intro ev test body rest env st v st1 hne h ht
    match test, hne with
    | .int n, _ => simp [cond_form, h, ht]
    | .list es, _ => simp [cond_form, h, ht]
    | .sym s, hne =>
      have hs : ¬s = "else" := fun hh => hne (by rw [hh])
      simp [cond_form, hs, h, ht]
  · intro ev e env st; rfl
  · intro ev e e2 rest env st; rfl

/-- Witness for C8: an always-false first clause falls through to the `else`
clause, whose body value is returned; and with no matching clause the result
is Python `None`. -/
theorem c8_witness :
    cond_form (fun e en s1 => evaluate 1 e en s1)
        [Expression.list [.int 0, .int 1], .list [.sym "else", .int 9]]
        globalEnv globalStore = some (.ok (.int 9, globalStore)) ∧
    cond_form (fun e en s1 => evaluate 1 e en s1) [Expression.list [.int 0, .int 1]]
        globalEnv globalStore = some (.ok (Value.none, globalStore)) := by
  constructor
  · have h1 := c8_cond.2.2.2.2.1 (fun e en s1 => evaluate 1 e en s1) (.int 0) [.int 1]
      [.list [.sym "else", .int 9]] globalEnv globalStore (.int 0) globalStore
      (by simp) rfl rfl
    rw [h1]
    exact c8_cond.2.2.1 _ [.int 9] [] globalEnv globalStore
  · have h1 := c8_cond.2.2.2.2.1 (fun e en s1 => evaluate 1 e en s1) (.int 0) [.int 1]
      [] globalEnv globalStore (.int 0) globalStore (by simp) rfl rfl
    rw [h1]
    exact c8_cond.2.1 _ globalEnv globalStore

/-! ## C3 -/

/-- Appending to a frame equals `frameSet` when the key is absent. -/
theorem frameSet_absent : ∀ (fr : Frame) (key : Expression) (val : Value),
    frameGet fr key = Option.none → frameSet fr key val = fr ++ [(key, val)]
  | [], _, _, _ => rfl
  | (k, v) :: rest, key, val, h => by
      by_cases hk : k = key
      · simp [frameGet, hk] at h
      · simp only [frameGet, if_neg hk] at h
        simp [frameSet, hk, frameSet_absent rest key val h]

/-- Lookup distributes over frame concatenation. -/
theorem frameGet_append : ∀ (a b : Frame) (key : Expression),
    frameGet (a ++ b) key
      = (match frameGet a key with
         | some v => some v
         | Option.none => frameGet b key)
  | [], _, _ => rfl
  | (k, v) :: rest, b, key => by
      by_cases hk : k = key <;> simp [frameGet, hk, frameGet_append rest b key]

/-- Keys of a zip are the first list truncated to the second's length. -/
theorem zip_map_fst_take : ∀ (ps : List Expression) (as : List Value),
    (ps.zip as).map Prod.fst = ps.take as.length
  | [], _ => by simp
  | _ :: _, [] => by simp
  | p :: ps, a :: as => by simp [zip_map_fst_take ps as]

/-- Inserting pairs with fresh, distinct, hashable keys appends them in
order. -/
theorem dictOfPairs_fresh : ∀ (pairs : List (Expression × Value)) (fr : Frame),
    (∀ p ∈ pairs, ∀ es, p.1 ≠ .list es) →
    (pairs.map Prod.fst).Nodup →
    (∀ p ∈ pairs, frameGet fr p.1 = Option.none) →
    dictOfPairs fr pairs = .ok (fr ++ pairs)
  | [], fr, _, _, _ => by simp [dictOfPairs]
  | (k, v) :: rest, fr, hhash, hnd, hfresh => by
      rw [List.map_cons] at hnd
      obtain ⟨hknotin, hndrest⟩ := List.nodup_cons.mp hnd
      have hk : ∀ es, k ≠ .list es := fun es => hhash (k, v) (by simp) es
      have hset : frameSet fr k v = fr ++ [(k, v)] :=
        frameSet_absent fr k v (hfresh (k, v) (by simp))
      have hrec : dictOfPairs (fr ++ [(k, v)]) rest = .ok ((fr ++ [(k, v)]) ++ rest) := by
        apply dictOfPairs_fresh rest (fr ++ [(k, v)])
        · intro p hp es; exact hhash p (List.mem_cons_of_mem _ hp) es
        · exact hndrest
        · intro p hp
          rw [frameGet_append]
          have h1 : frameGet fr p.1 = Option.none := hfresh p (List.mem_cons_of_mem _ hp)
          have h2 : k ≠ p.1 := fun hkp =>
            hknotin (by rw [hkp]; exact List.mem_map.mpr ⟨p, hp, rfl⟩)
          simp [h1, frameGet, h2]
      have hgoal : (fr ++ [(k, v)]) ++ rest = fr ++ (k, v) :: rest := by simp
      match k, hk, hset, hrec with
      | .int n, _, hset, hrec =>
          rw [show dictOfPairs fr ((Expression.int n, v) :: rest)
                = dictOfPairs (frameSet fr (Expression.int n) v) rest from rfl,
              hset, hrec, hgoal]
      | .sym s, _, hset, hrec =>
          rw [show dictOfPairs fr ((Expression.sym s, v) :: rest)
                = dictOfPairs (frameSet fr (Expression.sym s) v) rest from rfl,
              hset, hrec, hgoal]
      | .list es, hk, _, _ => exact absurd rfl (hk es)

/-- Positional lookup in a zip-built frame with distinct keys. -/
theorem frameGet_zip : ∀ (parms : List Expression) (args : List Value) (i : Nat)
    (h1 : i < parms.length) (h2 : i < args.length), parms.Nodup →
    frameGet (parms.zip args) parms[i] = some args[i]
  | p :: ps, a :: as, 0, _, _, _ => by simp [frameGet]
  | p :: ps, a :: as, i + 1, h1, h2, hnd => by
      have h1a : i < ps.length := by simpa using Nat.lt_of_succ_lt_succ h1
      have h2a : i < as.length := by simpa using Nat.lt_of_succ_lt_succ h2
      have hps : ps.Nodup := (List.nodup_cons.mp hnd).2
      have hmem : ps[i] ∈ ps := List.getElem_mem h1a
      have hne : p ≠ ps[i] := fun hp => (List.nodup_cons.mp hnd).1 (hp ▸ hmem)
      have hidx : (p :: ps)[i + 1] = ps[i] := by simp
      have hidx2 : (a :: as)[i + 1] = as[i] := by simp
      rw [List.zip_cons_cons, hidx, hidx2]
      simp only [frameGet, if_neg hne]
      exact frameGet_zip ps as i h1a h2a hps

/-- Totality of `dictOfPairs` on hashable keys. -/
theorem dictOfPairs_ok : ∀ (pairs : List (Expression × Value)) (fr : Frame),
    (∀ p ∈ pairs, ∀ es, p.1 ≠ .list es) → ∃ out, dictOfPairs fr pairs = .ok out
  | [], fr, _ => ⟨fr, rfl⟩
  | (k, v) :: rest, fr, hhash => by
      have hk : ∀ es, k ≠ .list es := fun es => hhash (k, v) (by simp) es
      have hrec := dictOfPairs_ok rest (frameSet fr k v)
        (fun p hp es => hhash p (List.mem_cons_of_mem _ hp) es)
      match k, hk, hrec with
      | .int n, _, hrec =>
          exact (by
            rw [show dictOfPairs fr ((Expression.int n, v) :: rest)
                  = dictOfPairs (frameSet fr (Expression.int n) v) rest from rfl]
            exact hrec)
      | .sym s, _, hrec =>
          exact (by
            rw [show dictOfPairs fr ((Expression.sym s, v) :: rest)
                  = dictOfPairs (frameSet fr (Expression.sym s) v) rest from rfl]
            exact hrec)
      | .list es, hk, _ => exact absurd rfl (hk es)

/-- C3: `application_env` pairs parameters with arguments positionally,
truncating silently to the shorter of the two lists (`zip` semantics), and
raises no arity error: for any argument count it returns an environment whose
fresh first frame is `dict(zip(parms, args))`.  With distinct (and hashable,
i.e. non-list) parameter names the frame is exactly the truncated positional
pairing, and the i-th parameter maps to the i-th argument whenever both lists
reach position i. -/
theorem c3_application_env (parms : List Expression) (args : List Value)
    (defEnv : Env) (st : Store)
    (hhash : ∀ p ∈ parms, ∀ es, p ≠ Expression.list es) :
    ∃ fr, dictOfPairs [] (parms.zip args) = .ok fr ∧
      application_env parms args defEnv st
        = .ok ([.frame st.length, .chain defEnv], st ++ [fr]) ∧
      (parms.zip args).length = min parms.length args.length ∧
      (parms.Nodup → fr = parms.zip args) ∧
      (parms.Nodup → ∀ i (h1 : i < parms.length) (h2 : i < args.length),
          frameGet fr parms[i] = some args[i]) := by
  have hhash2 : ∀ p ∈ parms.zip args, ∀ es, p.1 ≠ Expression.list es := by
    intro p hp es
    exact hhash p.1 (List.of_mem_zip hp).1 es
  obtain ⟨fr, hfr⟩ := dictOfPairs_ok (parms.zip args) [] hhash2
  have hchar : parms.Nodup → fr = parms.zip args := by
    intro hnd
    have hnd2 : ((parms.zip args).map Prod.fst).Nodup := by
      rw [zip_map_fst_take]
      exact hnd.sublist (List.take_sublist _ _)
    have := dictOfPairs_fresh (parms.zip args) [] hhash2 hnd2
      (fun p _ => rfl)
    rw [hfr] at this
    simpa using this
  refine ⟨fr, hfr, ?_, List.length_zip parms args, hchar, ?_⟩
  · rw [application_env, hfr]; rfl
  · intro hnd i h1 h2
    rw [hchar hnd]
    exact frameGet_zip parms args i h1 h2 hnd

/-- Witness for C3 at a two-parameter procedure applied to one argument: the
frame binds only the first parameter, and no error is raised. -/
theorem c3_witness :
    ∃ fr, dictOfPairs [] ([Expression.sym "a", .sym "b"].zip [Value.int 1]) = .ok fr ∧
      application_env [Expression.sym "a", .sym "b"] [Value.int 1] globalEnv globalStore
        = .ok ([.frame 1, .chain globalEnv], globalStore ++ [fr]) ∧
      ([Expression.sym "a", .sym "b"].zip [Value.int 1]).length
        = min [Expression.sym "a", .sym "b"].length [Value.int 1].length ∧
      ([Expression.sym "a", .sym "b"].Nodup →
        fr = [Expression.sym "a", .sym "b"].zip [Value.int 1]) ∧
      ([Expression.sym "a", .sym "b"].Nodup →
        ∀ i (h1 : i < [Expression.sym "a", .sym "b"].length)
          (h2 : i < [Value.int 1].length),
          frameGet fr [Expression.sym "a", .sym "b"][i] = some [Value.int 1][i]) := by
  exact c3_application_env [Expression.sym "a", .sym "b"] [Value.int 1]
    globalEnv globalStore (by intro p hp es; fin_cases hp <;> simp)

/-! ## C4 -/

/-- Concrete program, first form: `(define (make-adder n) (lambda (x) (+ x n)))`. -/
def defMakeAdder : Expression :=
  .list [.sym "define", .list [.sym "make-adder", .sym "n"],
    .list [.sym "lambda", .list [.sym "x"], .list [.sym "+", .sym "x", .sym "n"]]]

/-- Concrete program, second form: `(define add3 (make-adder 3))`. -/
def defAdd3 : Expression :=
  .list [.sym "define", .sym "add3", .list [.sym "make-adder", .int 3]]

/-- Concrete program, third form: `(add3 4)`. -/
def callAdd3 : Expression := .list [.sym "add3", .int 4]

/-- C4: a `lambda` (the same constructor the sugared `define` uses) returns a
`Procedure` value that captures the evaluation-time environment itself — a
reference into the shared store, fixed at creation since values are never
rewritten; every application extends the store with a brand-new frame at the
fresh address `st.length` (so each call to a factory creates a fresh parameter
frame); and the closure-capture test from the spec — defining `make-adder`,
binding `add3 = (make-adder 3)` and applying it to `4` — yields `7`. -/
theorem c4_closure_capture :
    (∀ fuel (parms : List Expression) (body : List Expression) env st, body ≠ [] →
        evaluate (fuel + 1) (.list (.sym "lambda" :: .list parms :: body)) env st
          = some (.ok (.proc parms body env, st))) ∧
    (∀ (parms : List Expression) (args : List Value) defEnv st env2 st2,
        application_env parms args defEnv st = .ok (env2, st2) →
        ∃ fr, env2 = [.frame st.length, .chain defEnv] ∧ st2 = st ++ [fr]) ∧
    ((runProgram 20 [defMakeAdder, defAdd3, callAdd3] globalEnv globalStore).map
        (Except.map Prod.fst) = some (.ok (.int 7))) := by
  refine ⟨?_, ?_, rfl⟩
  · intro fuel parms body env st hbody
    match body, hbody with
    | b :: bs, _ => simp [evaluate]
  · intro parms args defEnv st env2 st2 happ
    rw [application_env] at happ
    cases hd : dictOfPairs [] (parms.zip args) with
    | error er => rw [hd] at happ; cases happ
    | ok fr =>
        have h : ([EnvElem.frame st.length, EnvElem.chain defEnv], st ++ [fr])
            = (env2, st2) := by
          apply Except.ok.inj (ε := Err)
          rw [← happ, hd]
          rfl
        injection h with h1 h2
        exact ⟨fr, h1.symm, h2.symm⟩

/-- Witness for C4: a concrete lambda captures the global environment, and a
concrete `application_env` call appends one fresh frame. -/
theorem c4_witness :
    (evaluate 1 (.list [.sym "lambda", .list [.sym "x"], .sym "x"]) globalEnv globalStore
      = some (.ok (.proc [.sym "x"] [.sym "x"] globalEnv, globalStore))) ∧
    (∃ fr, [EnvElem.frame 1, .chain globalEnv] = [.frame globalStore.length, .chain globalEnv] ∧
      globalStore ++ [[(Expression.sym "x", Value.int 4)]] = globalStore ++ [fr]) := by
  constructor
  · exact c4_closure_capture.1 0 [.sym "x"] [.sym "x"] globalEnv globalStore (by simp)
  · exact c4_closure_capture.2.1 [.sym "x"] [.int 4] globalEnv globalStore
      [.frame 1, .chain globalEnv] (globalStore ++ [[(Expression.sym "x", Value.int 4)]]) rfl

/-! ## C1 -/

/-- Store of the C1 counterexample: frame 0 is the global frame binding `x`,
frame 1 is the frame of an intermediate procedure call (binding only `y`),
frame 2 is the parameter frame of a closure called from there. -/
def cexStore : Store := [[(.sym "x", .int 1)], [(.sym "y", .int 0)], []]

/-- Environment of the C1 counterexample, as built by two nested procedure
applications: the closure's frame, then the chain of the intermediate call's
environment, which chains to the global environment. -/
def cexEnv : Env := [.frame 2, .chain [.frame 1, .chain [.frame 0]]]

/-- Program demonstrating the C1 divergence end to end:
`(define x 1)`, `(define (f) (lambda () (set! x 2)))`, `(define h (f))`,
`(h)`, then `x`.  Under the claim the `set!` inside the closure would mutate
the global binding of `x` (the nearest and only frame holding it), making the
final `x` read `2`; the interpreter instead creates a shadowing binding in
the frame of the intermediate call to `f`, so the final `x` still reads `1`. -/
def cexProgram : List Expression :=
  [.list [.sym "define", .sym "x", .int 1],
   .list [.sym "define", .list [.sym "f"],
     .list [.sym "lambda", .list [], .list [.sym "set!", .sym "x", .int 2]]],
   .list [.sym "define", .sym "h", .list [.sym "f"]],
   .list [.sym "h"],
   .sym "x"]

/-- Counterexample to C1 as stated.  First: `(set! x 1)` with `x` unbound
everywhere raises the host `KeyError` (uncaught by `evaluate`), not
`UndefinedSymbol`.  Second: in the nested environment `cexEnv`, where the only
frame binding `x` is the global frame 0, `(set! x 2)` leaves frame 0 untouched
(still `x = 1`) and instead creates a brand-new shadowing binding in frame 1,
which did not bind `x` before — so the binding is neither mutated in place nor
in the nearest (indeed the only) frame holding it, and a new binding is
created.  Third: the same divergence reached end to end by `cexProgram`: after
the closure's `(set! x 2)` runs, the global `x` still reads `1`. -/
theorem c1_counterexample :
    (evaluate 3 (.list [.sym "set!", .sym "x", .int 1]) [.frame 0] [[]]
        = some (.error (.keyError (.sym "x"))) ∧
      evaluate 3 (.list [.sym "set!", .sym "x", .int 1]) [.frame 0] [[]]
        ≠ some (.error (.undefinedSymbol "x"))) ∧
    (evaluate 3 (.list [.sym "set!", .sym "x", .int 2]) cexEnv cexStore
        = some (.ok (Value.none,
            [[(.sym "x", .int 1)], [(.sym "y", .int 0), (.sym "x", .int 2)], []])) ∧
      frameGet (cexStore.getD 0 []) (.sym "x") = some (.int 1) ∧
      frameGet (cexStore.getD 1 []) (.sym "x") = Option.none ∧
      frameGet ([[(Expression.sym "x", Value.int 1)],
          [(Expression.sym "y", Value.int 0), (Expression.sym "x", Value.int 2)],
          ([] : Frame)].getD 0 []) (.sym "x") = some (.int 1) ∧
      frameGet ([[(Expression.sym "x", Value.int 1)],
          [(Expression.sym "y", Value.int 0), (Expression.sym "x", Value.int 2)],
          ([] : Frame)].getD 1 []) (.sym "x") = some (.int 2)) ∧
    ((runProgram 30 cexProgram globalEnv globalStore).map (Except.map Prod.fst)
      = some (.ok (.int 1))) := by
  refine ⟨?_, ?_, rfl⟩
  · refine ⟨rfl, ?_⟩
    intro h
    rw [show evaluate 3 (Expression.list [.sym "set!", .sym "x", .int 1])
          [EnvElem.frame 0] [[]]
        = some (Except.error (Err.keyError (Expression.sym "x"))) from rfl] at h
    simp at h
  · exact ⟨rfl, rfl, rfl, rfl, rfl⟩

/-- Unbound key: `change` raises `KeyError` (and touches nothing). -/
theorem change_unbound : ∀ (env : List EnvElem) (key : Expression) (v : Value) (st : Store),
    lookupElems env key st = Option.none → change env key v st = .error (.keyError key)
  | [], _, _, _, _ => rfl
  | el :: rest, key, v, st, h => by
      rw [lookupElems] at h
      cases hel : lookupElem el key st with
      | some w => rw [hel] at h; cases h
      | none =>
          rw [hel] at h
          have hco : containsElem el key st = false := by
            rw [containsElem, hel]; rfl
          rw [change, hco]
          simpa using change_unbound rest key v st h

/-- Elements that do not contain the key are skipped by `change`. -/
theorem change_prefix_skip : ∀ (pre : List EnvElem) (el : EnvElem) (rest : List EnvElem)
    (key : Expression) (v : Value) (st : Store),
    (∀ e ∈ pre, containsElem e key st = false) →
    change (pre ++ el :: rest) key v st = change (el :: rest) key v st
  | [], _, _, _, _, _, _ => rfl
  | p :: pre, el, rest, key, v, st, h => by
      have hp : containsElem p key st = false := h p (by simp)
      rw [List.cons_append, change, hp]
      simp only [Bool.false_eq_true, if_false]
      exact change_prefix_skip pre el rest key v st (fun e he => h e (List.mem_cons_of_mem _ he))

/-- C1 (amended): (1) when a symbol has no binding in any frame of the chain,
`set!` evaluates the value expression and then fails with the host `KeyError`
raised by `Environment.change` — not with `UndefinedSymbol` — and, the store
being returned unchanged only inside the error-free path, no binding is
created; (2) `change` itself raises `KeyError` exactly when the lookup misses
everywhere; (3) when the first element of the chain that contains the symbol
is a plain frame, the binding is mutated in place in that frame (this covers
the common two-level environment, global frame plus one parameter frame);
(4) when that first containing element is a nested chain map, the write goes
through the nested chain's own `__setitem__`, i.e. into its first frame,
which is how a fresh shadowing binding can be created instead of mutating the
frame that actually holds the symbol. -/
theorem c1_set_change_behavior :
    (∀ fuel (s : String) (value_exp : Expression) env st v st1,
        evaluate fuel value_exp env st = some (.ok (v, st1)) →
        lookupElems env (.sym s) st1 = Option.none →
        evaluate (fuel + 1) (.list [.sym "set!", .sym s, value_exp]) env st
          = some (.error (.keyError (.sym s)))) ∧
    (∀ (env : List EnvElem) key v st,
        lookupElems env key st = Option.none →
        change env key v st = .error (.keyError key)) ∧
    (∀ (pre : List EnvElem) fid (rest : List EnvElem) key v st,
        (∀ e ∈ pre, containsElem e key st = false) →
        containsElem (.frame fid) key st = true →
        change (pre ++ .frame fid :: rest) key v st
          = .ok (st.set fid (frameSet (st.getD fid []) key v))) ∧
    (∀ (pre : List EnvElem) (es : List EnvElem) (rest : List EnvElem) key v st,
        (∀ e ∈ pre, containsElem e key st = false) →
        containsElem (.chain es) key st = true →
        change (pre ++ .chain es :: rest) key v st = setItem es key v st) := by
  refine ⟨?_, change_unbound, ?_, ?_⟩
  · intro fuel s value_exp env st v st1 hev hlook
    have hch : change env (.sym s) v st1 = .error (.keyError (.sym s)) :=
      change_unbound env (.sym s) v st1 hlook
    simp [evaluate, hev, hch]
  · intro pre fid rest key v st hpre hc
    rw [change_prefix_skip pre _ rest key v st hpre, change, hc]
    rfl
  · intro pre es rest key v st hpre hc
    rw [change_prefix_skip pre _ rest key v st hpre, change, hc]
    rfl

/-- Witness for C1 (amended): `(set! z 5)` in the global environment (which
does not bind `z`) raises `KeyError`; `change` on the two-level environment
`[frame 1, chain [frame 0]]` mutates `x` in place in the global frame. -/
theorem c1_witness :
    (evaluate 2 (.list [.sym "set!", .sym "z", .int 5]) globalEnv globalStore
      = some (.error (.keyError (.sym "z")))) ∧
    (change ([] ++ EnvElem.frame 0 :: []) (.sym "x") (.int 9) [[(.sym "x", .int 1)]]
      = .ok ([[(Expression.sym "x", Value.int 1)]].set 0
          (frameSet ([[(Expression.sym "x", Value.int 1)]].getD 0 []) (.sym "x") (.int 9)))) := by
  constructor
  · exact c1_set_change_behavior.1 1 "z" (.int 5) globalEnv globalStore
      (.int 5) globalStore rfl rfl
  · exact c1_set_change_behavior.2.2.1 [] 0 [] (.sym "x") (.int 9)
      [[(.sym "x", .int 1)]] (by simp) rfl

/-! ## C6 -/

/-- Shapes accepted by the special-form cases of `evaluate` (the patterns on
lis.py lines 225-253), per reserved keyword head: `(quote x)`;
`(if t c a)`; `(define sym exp)` and `(define (sym …) body…+)`;
`(set! sym exp)`; `(lambda (…) body…+)`; `cond`/`or`/`and`/`begin` accept any
argument list. -/
def specialShape : String → List Expression → Bool
  | "quote", [_] => true
  | "if", [_, _, _] => true
  | "define", [.sym _, _] => true
  | "define", .list (.sym _ :: _) :: body => !body.isEmpty
  | "set!", [.sym _, _] => true
  | "lambda", .list _ :: body => !body.isEmpty
  | "cond", _ => true
  | "or", _ => true
  | "and", _ => true
  | "begin", _ => true
  | _, _ => false

/-- A form headed by a reserved keyword that reaches the application arm is
rejected with `InvalidSyntax` before any evaluation happens. -/
theorem applyForm_keyword (ev : Expression → Env → Store → EvalM) (op : Expression)
    (args : List Expression) (env : Env) (st : Store) (h : isKeywordOp op = true) :
    applyForm ev op args env st
      = some (.error (.syntaxError (lispstr (.list (op :: args))))) := by
  simp [applyForm, h]

theorem c6_quote_bad (rest : List Expression) (fuel : Nat) (env : Env) (st : Store)
    (hshape : specialShape "quote" rest = false) :
    evaluate (fuel + 1) (.list (.sym "quote" :: rest)) env st
      = some (.error (.syntaxError (lispstr (.list (.sym "quote" :: rest))))) := by
  rcases rest with _ | ⟨a, _ | ⟨b, t⟩⟩
  · (simp [evaluate]; exact applyForm_keyword _ _ _ _ _ rfl)
  · simp [specialShape] at hshape
  · (simp [evaluate]; exact applyForm_keyword _ _ _ _ _ rfl)

theorem c6_if_bad (rest : List Expression) (fuel : Nat) (env : Env) (st : Store)
    (hshape : specialShape "if" rest = false) :
    evaluate (fuel + 1) (.list (.sym "if" :: rest)) env st
      = some (.error (.syntaxError (lispstr (.list (.sym "if" :: rest))))) := by
  rcases rest with _ | ⟨a, _ | ⟨b, _ | ⟨c, _ | ⟨d, t⟩⟩⟩⟩
  · (simp [evaluate]; exact applyForm_keyword _ _ _ _ _ rfl)
  · (simp [evaluate]; exact applyForm_keyword _ _ _ _ _ rfl)
  · (simp [evaluate]; exact applyForm_keyword _ _ _ _ _ rfl)
  · simp [specialShape] at hshape
  · (simp [evaluate]; exact applyForm_keyword _ _ _ _ _ rfl)

theorem c6_define_bad (rest : List Expression) (fuel : Nat) (env : Env) (st : Store)
    (hshape : specialShape "define" rest = false) :
    evaluate (fuel + 1) (.list (.sym "define" :: rest)) env st
      = some (.error (.syntaxError (lispstr (.list (.sym "define" :: rest))))) := by
  rcases rest with _ | ⟨a, rest2⟩
  · (simp [evaluate]; exact applyForm_keyword _ _ _ _ _ rfl)
  · rcases rest2 with _ | ⟨b, rest3⟩
    · -- one argument: the sugared pattern with an empty body falls through
      rcases a with n | s | es
      · (simp [evaluate]; exact applyForm_keyword _ _ _ _ _ rfl)
      · (simp [evaluate]; exact applyForm_keyword _ _ _ _ _ rfl)
      · rcases es with _ | ⟨h1, hs⟩
        · (simp [evaluate]; exact applyForm_keyword _ _ _ _ _ rfl)
        · rcases h1 with n | s | es2 <;> (simp [evaluate]; exact applyForm_keyword _ _ _ _ _ rfl)
    · rcases rest3 with _ | ⟨c, t⟩
      · -- two arguments
        rcases a with n | s | es
        · (simp [evaluate]; exact applyForm_keyword _ _ _ _ _ rfl)
        · simp [specialShape] at hshape
        · rcases es with _ | ⟨h1, hs⟩
          · (simp [evaluate]; exact applyForm_keyword _ _ _ _ _ rfl)
          · rcases h1 with n | s | es2
            · (simp [evaluate]; exact applyForm_keyword _ _ _ _ _ rfl)
            · simp [specialShape] at hshape
            · (simp [evaluate]; exact applyForm_keyword _ _ _ _ _ rfl)
      · -- three or more arguments
        rcases a with n | s | es
        · (simp [evaluate]; exact applyForm_keyword _ _ _ _ _ rfl)
        · (simp [evaluate]; exact applyForm_keyword _ _ _ _ _ rfl)
        · rcases es with _ | ⟨h1, hs⟩
          · (simp [evaluate]; exact applyForm_keyword _ _ _ _ _ rfl)
          · rcases h1 with n | s | es2
            · (simp [evaluate]; exact applyForm_keyword _ _ _ _ _ rfl)
            · simp [specialShape] at hshape
            · (simp [evaluate]; exact applyForm_keyword _ _ _ _ _ rfl)

theorem c6_set_bad (rest : List Expression) (fuel : Nat) (env : Env) (st : Store)
    (hshape : specialShape "set!" rest = false) :
    evaluate (fuel + 1) (.list (.sym "set!" :: rest)) env st
      = some (.error (.syntaxError (lispstr (.list (.sym "set!" :: rest))))) := by
  rcases rest with _ | ⟨a, _ | ⟨b, _ | ⟨c, t⟩⟩⟩
  · (simp [evaluate]; exact applyForm_keyword _ _ _ _ _ rfl)
  · rcases a with n | s | es <;> (simp [evaluate]; exact applyForm_keyword _ _ _ _ _ rfl)
  · rcases a with n | s | es
    · (simp [evaluate]; exact applyForm_keyword _ _ _ _ _ rfl)
    · simp [specialShape] at hshape
    · (simp [evaluate]; exact applyForm_keyword _ _ _ _ _ rfl)
  · rcases a with n | s | es <;> (simp [evaluate]; exact applyForm_keyword _ _ _ _ _ rfl)

theorem c6_lambda_bad (rest : List Expression) (fuel : Nat) (env : Env) (st : Store)
    (hshape : specialShape "lambda" rest = false) :
    evaluate (fuel + 1) (.list (.sym "lambda" :: rest)) env st
      = some (.error (.syntaxError (lispstr (.list (.sym "lambda" :: rest))))) := by
  rcases rest with _ | ⟨a, body⟩
  · (simp [evaluate]; exact applyForm_keyword _ _ _ _ _ rfl)
  · rcases a with n | s | es
    · (simp [evaluate]; exact applyForm_keyword _ _ _ _ _ rfl)
    · (simp [evaluate]; exact applyForm_keyword _ _ _ _ _ rfl)
    · rcases body with _ | ⟨b, bs⟩
      · (simp [evaluate]; exact applyForm_keyword _ _ _ _ _ rfl)
      · simp [specialShape] at hshape

/-- C6: reserved keywords are never treated as callables — a form headed by a
reserved keyword whose shape matches no special-form rule fails with
`InvalidSyntax` (carrying the form's rendering) rather than being evaluated
as a function application; in particular `(if 1 2)`, a `lambda` and a sugared
`define` with empty bodies fail that way, as does the empty list `()`. -/
theorem c6_keywords_not_callable :
    (∀ (s : String) (rest : List Expression) fuel env st,
        s ∈ KEYWORDS → specialShape s rest = false →
        evaluate (fuel + 1) (.list (.sym s :: rest)) env st
          = some (.error (.syntaxError (lispstr (.list (.sym s :: rest)))))) ∧
    (evaluate 1 (.list [.sym "if", .int 1, .int 2]) globalEnv globalStore
      = some (.error (.syntaxError "(if 1 2)"))) ∧
    (evaluate 1 (.list [.sym "lambda", .list [.sym "x"]]) globalEnv globalStore
      = some (.error (.syntaxError "(lambda (x))"))) ∧
    (evaluate 1 (.list [.sym "define", .list [.sym "f", .sym "x"]]) globalEnv globalStore
      = some (.error (.syntaxError "(define (f x))"))) ∧
    (∀ fuel env st, evaluate (fuel + 1) (.list []) env st
      = some (.error (.syntaxError "()"))) := by
  refine ⟨?_, rfl, rfl, rfl, fun fuel env st => rfl⟩
  intro s rest fuel env st hmem hshape
  have hcases : s = "quote" ∨ s = "if" ∨ s = "define" ∨ s = "lambda" ∨
      s = "set!" ∨ s = "cond" ∨ s = "or" ∨ s = "and" ∨ s = "begin" := by
    simpa [KEYWORDS, KEYWORDS_1, KEYWORDS_2] using hmem
  rcases hcases with h | h | h | h | h | h | h | h | h <;> subst h
  · exact c6_quote_bad rest fuel env st hshape
  · exact c6_if_bad rest fuel env st hshape
  · exact c6_define_bad rest fuel env st hshape
  · exact c6_lambda_bad rest fuel env st hshape
  · exact c6_set_bad rest fuel env st hshape
  · simp [specialShape] at hshape
  · simp [specialShape] at hshape
  · simp [specialShape] at hshape
  · simp [specialShape] at hshape

/-- Witness for C6 applying the universal part to `(if 1 2)`. -/
theorem c6_witness :
    evaluate 1 (.list (.sym "if" :: [.int 1, .int 2])) globalEnv globalStore
      = some (.error (.syntaxError
          (lispstr (.list (.sym "if" :: [.int 1, .int 2]))))) := by
  exact c6_keywords_not_callable.1 "if" [.int 1, .int 2] 0 globalEnv globalStore
    (by decide) rfl

/-! ## C7 -/

/-- C7: the reader fails with `UnexpectedEndOfSource` whenever the token
cursor is exhausted before an expression is complete — both at the very start
and inside an open list whose closing parenthesis never arrives — and fails
with `UnexpectedCloseParen` when it pops a `)` with no matching open.  The
third conjunct links the open-parenthesis token to the list-reading loop, and
the last two check the spec's concrete examples end to end through `parse`. -/
theorem c7_reader_errors :
    (∀ fuel, read_from_tokens (fuel + 1) [] = some (.error .unexpectedEndOfSource)) ∧
    (∀ fuel, read_list (fuel + 1) [] = some (.error .unexpectedEndOfSource)) ∧
    (∀ fuel (rest : List String), read_from_tokens (fuel + 1) ("(" :: rest)
      = bindE (read_list fuel rest) fun es rest2 => some (.ok (.list es, rest2))) ∧
    (∀ fuel (rest : List String), read_from_tokens (fuel + 1) (")" :: rest)
      = some (.error .unexpectedCloseParen)) ∧
    (parse "(+ 1 2" = .error .unexpectedEndOfSource) ∧
    (parse ")" = .error .unexpectedCloseParen) := by
  refine ⟨fun fuel => rfl, fun fuel => rfl, fun fuel rest => rfl, ?_, rfl, rfl⟩
  intro fuel rest
  simp [read_from_tokens]

/-! ## C9: decimal rendering and parsing round-trip -/

theorem natToCharsAux_zero : ∀ fuel, natToCharsAux fuel 0 = []
  | 0 => rfl
  | _ + 1 => by simp [natToCharsAux]

theorem digitChar_isDigit (m : Nat) (h : m < 10) : (Nat.digitChar m).isDigit = true := by
  interval_cases m <;> decide

theorem digitChar_toNat (m : Nat) (h : m < 10) : (Nat.digitChar m).toNat - 48 = m := by
  interval_cases m <;> decide

theorem parseDigitsGo_digit (m acc : Nat) (h : m < 10) :
    parseDigitsGo [Nat.digitChar m] acc = some (acc * 10 + m) := by
  simp [parseDigitsGo, digitChar_isDigit m h, digitChar_toNat m h]

theorem parseDigitsGo_append : ∀ (xs ys : List Char) (acc : Nat),
    parseDigitsGo (xs ++ ys) acc
      = (match parseDigitsGo xs acc with
         | some a => parseDigitsGo ys a
         | Option.none => Option.none)
  | [], ys, acc => rfl
  | c :: rest, ys, acc => by
      by_cases hc : c.isDigit
      · simp only [List.cons_append, parseDigitsGo, hc, if_true]
        exact parseDigitsGo_append rest ys (acc * 10 + (c.toNat - 48))
      · simp [parseDigitsGo, hc]

theorem natToCharsAux_digits : ∀ (fuel n : Nat) (c : Char),
    c ∈ natToCharsAux fuel n → c.isDigit = true
  | 0, _, _, h => absurd h (by simp [natToCharsAux])
  | fuel + 1, n, c, h => by
      by_cases hn : n = 0
      · rw [natToCharsAux, if_pos hn] at h; cases h
      · rw [natToCharsAux, if_neg hn] at h
        rcases List.mem_append.mp h with h1 | h1
        · exact natToCharsAux_digits fuel (n / 10) c h1
        · have : c = Nat.digitChar (n % 10) := by simpa using h1
          rw [this]
          exact digitChar_isDigit _ (Nat.mod_lt n (by norm_num))

theorem natToCharsAux_spec : ∀ (fuel n acc : Nat), 0 < n → n ≤ fuel →
    parseDigitsGo (natToCharsAux fuel n) acc
      = some (acc * 10 ^ (natToCharsAux fuel n).length + n)
  | 0, n, _, h0, hle => by omega
  | fuel + 1, n, acc, h0, hle => by
      have hn : ¬ n = 0 := by omega
      rw [natToCharsAux, if_neg hn]
      by_cases hq : n / 10 = 0
      · have hlt : n < 10 := by omega
        have hmod : n % 10 = n := Nat.mod_eq_of_lt hlt
        rw [hq, natToCharsAux_zero, List.nil_append, hmod]
        rw [parseDigitsGo_digit n acc hlt]
        simp
      · have hdiv : n / 10 < n := Nat.div_lt_self h0 (by norm_num)
        have h10 : n / 10 ≤ fuel := by omega
        have hrec := natToCharsAux_spec fuel (n / 10) acc (Nat.pos_of_ne_zero hq) h10
        rw [parseDigitsGo_append, hrec]
        show parseDigitsGo [Nat.digitChar (n % 10)]
            (acc * 10 ^ (natToCharsAux fuel (n / 10)).length + n / 10)
          = some (acc * 10 ^ (natToCharsAux fuel (n / 10) ++ [Nat.digitChar (n % 10)]).length + n)
        rw [parseDigitsGo_digit (n % 10) _ (Nat.mod_lt n (by norm_num))]
        have hnm : 10 * (n / 10) + n % 10 = n := Nat.div_add_mod n 10
        simp only [List.length_append, List.length_cons, List.length_nil]
        rw [pow_succ]
        congr 1
        ring_nf
        omega

theorem natToChars_ne_nil (n : Nat) : natToChars n ≠ [] := by
  by_cases h : n = 0
  · subst h; simp [natToChars]
  · rw [natToChars, if_neg h, natToCharsAux, if_neg h]
    simp

theorem natToChars_digits (n : Nat) (c : Char) (h : c ∈ natToChars n) :
    c.isDigit = true := by
  by_cases h0 : n = 0
  · subst h0
    simp [natToChars] at h
    rw [h]; decide
  · rw [natToChars, if_neg h0] at h
    exact natToCharsAux_digits (n + 1) n c h

theorem parseDigits_natToChars (n : Nat) : parseDigits (natToChars n) = some n := by
  by_cases h : n = 0
  · subst h; rfl
  · rw [natToChars, if_neg h]
    have hspec := natToCharsAux_spec (n + 1) n 0 (Nat.pos_of_ne_zero h) (by omega)
    cases hx : natToCharsAux (n + 1) n with
    | nil =>
        rw [natToCharsAux, if_neg h] at hx
        exact absurd hx (by simp)
    | cons c cs =>
        rw [hx] at hspec
        rw [show parseDigits (c :: cs) = parseDigitsGo (c :: cs) 0 from rfl, hspec]
        simp

theorem digit_not_sign (c : Char) (h : c.isDigit = true) : ¬ c = '-' ∧ ¬ c = '+' := by
  constructor <;> intro he <;> rw [he] at h <;> simp at h

theorem intParse_intToStr (n : Int) : intParse (intToStr n).data = some n := by
  by_cases h : n < 0
  · rw [intToStr, if_pos h]
    rw [show (⟨'-' :: natToChars n.natAbs⟩ : String).data = '-' :: natToChars n.natAbs from rfl]
    rw [intParse, if_pos rfl, parseDigits_natToChars]
    show some (-(n.natAbs : Int)) = some n
    congr 1
    omega
  · rw [intToStr, if_neg h]
    rw [show (⟨natToChars n.natAbs⟩ : String).data = natToChars n.natAbs from rfl]
    cases hx : natToChars n.natAbs with
    | nil => exact absurd hx (natToChars_ne_nil _)
    | cons c cs =>
        have hd : c.isDigit = true := natToChars_digits _ c (by rw [hx]; simp)
        obtain ⟨h1, h2⟩ := digit_not_sign c hd
        rw [intParse, if_neg h1, if_neg h2, ← hx, parseDigits_natToChars]
        show some ((n.natAbs : Int)) = some n
        congr 1
        omega

/-- Rendering an integer and reading the token back gives the same atom. -/
theorem parse_atom_int (n : Int) : parse_atom (intToStr n) = .int n := by
  simp [parse_atom, intParse_intToStr]

theorem parseDigits_nondigit : ∀ (cs : List Char),
    (∀ c ∈ cs, c.isDigit = false) → parseDigits cs = Option.none
  | [], _ => rfl
  | c :: rest, h => by
      have : c.isDigit = false := h c (by simp)
      simp [parseDigits, parseDigitsGo, this]

/-- Core of a token for float-literal detection: strip one leading sign and
lowercase (Python `float()` accepts `inf`, `infinity` and `nan` spellings
case-insensitively, with an optional sign). -/
def lowerCore (s : String) : List Char :=
  (match s.data with
   | [] => []
   | c :: rest => if c = '+' ∨ c = '-' then rest else c :: rest).map Char.toLower

/-- Simple symbol tokens: non-empty strings of printable ASCII characters
(codes 0x21 to 0x7e) other than parentheses, ASCII digits and dots, and not
an inf/infinity/nan spelling.  The printable-ASCII bound makes the embedding
provably agree with CPython on every such token: no character of the token
is `str.split()` whitespace (none of the 29 `pythonWs` code points lies in
0x21-0x7e), so the tokenizer keeps the token intact, and the token contains
no Unicode decimal digit at all (the only Nd code points in 0x21-0x7e are
the ASCII digits, which are excluded), so Python's `int()` — which requires
at least one Nd digit — raises ValueError, and so does `float()`, whose
extra acceptances (a dot, digit-anchored exponent forms, signed inf/nan
spellings) are all excluded here.  Hence real `parse_atom` returns
`Symbol(token)`, exactly as the modelled one does.  The `isWs c = false`
conjunct is implied by the ASCII bound and kept for direct use in proofs. -/
def SimpleTok (s : String) : Prop :=
  s.data ≠ [] ∧
  (∀ c ∈ s.data, isWs c = false ∧ c ≠ '(' ∧ c ≠ ')' ∧ c.isDigit = false ∧ c ≠ '.' ∧
    0x21 ≤ c.toNat ∧ c.toNat ≤ 0x7e) ∧
  lowerCore s ≠ ['i', 'n', 'f'] ∧ lowerCore s ≠ "infinity".data ∧
  lowerCore s ≠ ['n', 'a', 'n']

instance (s : String) : Decidable (SimpleTok s) := by
  unfold SimpleTok
  infer_instance

/-- Simple canonical expressions: integer atoms, simple symbol tokens, and
lists thereof.  `lispstr` of such an expression is a canonical source string
(single-space-separated tokens, no leading/trailing whitespace); this is the
formalisation of the round-trip claim's "simple canonical source string",
wide enough to contain `"(+ 1 2)"` and every ordinary program text while
keeping the embedding provably faithful on each quantified string. -/
inductive SimpleExpr : Expression → Prop
  | int : ∀ n : Int, SimpleExpr (.int n)
  | sym : ∀ s : String, SimpleTok s → SimpleExpr (.sym s)
  | list : ∀ es : List Expression, (∀ e ∈ es, SimpleExpr e) → SimpleExpr (.list es)

/-- A simple symbol token parses back as itself. -/
theorem parse_atom_sym (s : String) (h : SimpleTok s) : parse_atom s = .sym s := by
  obtain ⟨hne, hchars, -, -, -⟩ := h
  have hnone : intParse s.data = Option.none := by
    cases hx : s.data with
    | nil => exact absurd hx hne
    | cons c rest =>
        have hrest : ∀ d ∈ rest, d.isDigit = false := by
          intro d hd
          exact (hchars d (by rw [hx]; exact List.mem_cons_of_mem _ hd)).2.2.2.1
        have hcd : c.isDigit = false :=
          (hchars c (by rw [hx]; simp)).2.2.2.1
        rw [intParse]
        by_cases h1 : c = '-'
        · rw [if_pos h1, parseDigits_nondigit rest hrest]; rfl
        · rw [if_neg h1]
          by_cases h2 : c = '+'
          · rw [if_pos h2, parseDigits_nondigit rest hrest]; rfl
          · rw [if_neg h2, parseDigits_nondigit (c :: rest) ?_]
            · rfl
            · intro d hd
              rcases List.mem_cons.mp hd with hh | hh
              · rw [hh]; exact hcd
              · exact hrest d hh
  rw [parse_atom, hnone]

mutual
/-- Token stream (as character lists) of the canonical rendering of an
expression: an atom is one token, a list is `(`, the element tokens, `)`. -/
def flatTokensData : Expression → List (List Char)
  | .int n => [(intToStr n).data]
  | .sym s => [s.data]
  | .list es => ['('] :: flatTokensDataList es ++ [[')']]

/-- Token stream of a list of expressions. -/
def flatTokensDataList : List Expression → List (List Char)
  | [] => []
  | e :: rest => flatTokensData e ++ flatTokensDataList rest
end

/-! ## C9: tokenizer lemmas -/

theorem strData_append (a b : String) : (a ++ b).data = a.data ++ b.data := by
  cases a; cases b; rfl

theorem expandParens_append : ∀ a b : List Char,
    expandParens (a ++ b) = expandParens a ++ expandParens b
  | [], _ => rfl
  | c :: rest, b => by
      show expandChar c ++ expandParens (rest ++ b)
        = (expandChar c ++ expandParens rest) ++ expandParens b
      rw [expandParens_append rest b, List.append_assoc]

theorem expandParens_token : ∀ cs : List Char,
    (∀ c ∈ cs, c ≠ '(' ∧ c ≠ ')') → expandParens cs = cs
  | [], _ => rfl
  | c :: rest, h => by
      obtain ⟨h1, h2⟩ := h c (by simp)
      simp only [expandParens, expandChar, if_neg h1, if_neg h2]
      simp [expandParens_token rest (fun d hd => h d (List.mem_cons_of_mem _ hd))]

theorem digit_not_special (c : Char) (h : c.isDigit = true) :
    isWs c = false ∧ c ≠ '(' ∧ c ≠ ')' := by
  refine ⟨?_, ?_, ?_⟩
  · cases hx : isWs c with
    | false => rfl
    | true =>
        exfalso
        have hmem : c ∈ pythonWs := by
          rw [isWs] at hx
          simpa using hx
        simp only [pythonWs] at hmem
        fin_cases hmem <;> exact absurd h (by decide)
  · intro he; rw [he] at h; exact absurd h (by decide)
  · intro he; rw [he] at h; exact absurd h (by decide)

theorem intToStr_ne_nil (n : Int) : (intToStr n).data ≠ [] := by
  by_cases h : n < 0
  · rw [intToStr, if_pos h]; simp
  · rw [intToStr, if_neg h]
    exact natToChars_ne_nil n.natAbs

theorem intToStr_chars (n : Int) : ∀ c ∈ (intToStr n).data,
    isWs c = false ∧ c ≠ '(' ∧ c ≠ ')' := by
  intro c hc
  by_cases h : n < 0
  · rw [intToStr, if_pos h] at hc
    rcases List.mem_cons.mp hc with h1 | h1
    · rw [h1]; refine ⟨rfl, by decide, by decide⟩
    · exact digit_not_special c (natToChars_digits _ c h1)
  · rw [intToStr, if_neg h] at hc
    exact digit_not_special c (natToChars_digits _ c hc)

theorem splitWsAux_tok : ∀ (t cs cur : List Char), (∀ c ∈ t, isWs c = false) →
    splitWsAux (t ++ cs) cur = splitWsAux cs (cur ++ t)
  | [], cs, cur, _ => by simp
  | c :: rest, cs, cur, h => by
      have hc : isWs c = false := h c (by simp)
      have step : splitWsAux ((c :: rest) ++ cs) cur
          = splitWsAux (rest ++ cs) (cur ++ [c]) := by
        simp only [List.cons_append, splitWsAux, hc]
        simp
      rw [step, splitWsAux_tok rest cs (cur ++ [c])
        (fun d hd => h d (List.mem_cons_of_mem _ hd))]
      simp

/-- Suffixes at which a token may legally stop: end of input or whitespace. -/
def WsBoundary (cs : List Char) : Prop :=
  cs = [] ∨ ∃ c cs2, cs = c :: cs2 ∧ isWs c = true

theorem splitWsAux_single_tok (t cs : List Char) (ht : t ≠ [])
    (hws : ∀ c ∈ t, isWs c = false) (hb : WsBoundary cs) :
    splitWsAux (t ++ cs) [] = t :: splitWsAux cs [] := by
  rw [splitWsAux_tok t cs [] hws, List.nil_append]
  have hemp : t.isEmpty = false := by
    cases t with
    | nil => exact absurd rfl ht
    | cons a b => rfl
  rcases hb with h | ⟨c, cs2, hceq, hcw⟩
  · subst h
    simp [splitWsAux, hemp]
  · subst hceq
    simp [splitWsAux, hcw, hemp]

theorem splitWs_open (rest : List Char) :
    splitWsAux (' ' :: '(' :: ' ' :: rest) [] = ['('] :: splitWsAux rest [] := rfl

theorem splitWs_close (rest : List Char) :
    splitWsAux (' ' :: ')' :: ' ' :: rest) [] = [')'] :: splitWsAux rest [] := rfl

theorem lispstr_list_data (es : List Expression) :
    (lispstr (.list es)).data = '(' :: (joinSpace (lispstrList es)).data ++ [')'] := by
  rw [lispstr, strData_append, strData_append]
  rfl

/-- Main tokenizer lemma: splitting the paren-expanded canonical rendering of
a simple expression, followed by any whitespace-fronted (or empty) suffix,
yields exactly the expression's token stream followed by the split of the
suffix. -/
theorem lispstr_split (e : Expression) (he : SimpleExpr e) : ∀ cs : List Char,
    WsBoundary cs →
    splitWsAux (expandParens (lispstr e).data ++ cs) []
      = flatTokensData e ++ splitWsAux cs [] := by
  induction he with
  | int n =>
      intro cs hb
      have hchars := intToStr_chars n
      rw [show (lispstr (.int n)).data = (intToStr n).data from rfl]
      rw [expandParens_token _ (fun c hc => (hchars c hc).2)]
      rw [splitWsAux_single_tok _ cs (intToStr_ne_nil n)
        (fun c hc => (hchars c hc).1) hb]
      rfl
  | sym s hs =>
      intro cs hb
      obtain ⟨hne, hchars, -, -, -⟩ := hs
      rw [show (lispstr (.sym s)).data = s.data from rfl]
      rw [expandParens_token _ (fun c hc => ⟨(hchars c hc).2.1, (hchars c hc).2.2.1⟩)]
      rw [splitWsAux_single_tok _ cs hne (fun c hc => (hchars c hc).1) hb]
      rfl
  | list es hes ih =>
      intro cs hb
      have inner : ∀ (l : List Expression),
          (∀ e2 ∈ l, ∀ cs2, WsBoundary cs2 →
            splitWsAux (expandParens (lispstr e2).data ++ cs2) []
              = flatTokensData e2 ++ splitWsAux cs2 []) →
          ∀ cs2 : List Char, WsBoundary cs2 →
          splitWsAux (expandParens (joinSpace (lispstrList l)).data ++ cs2) []
            = flatTokensDataList l ++ splitWsAux cs2 [] := by
        intro l
        induction l with
        | nil => intro _ cs2 _; rfl
        | cons e2 l2 ihl =>
            intro hih cs2 hb2
            cases l2 with
            | nil =>
                rw [show joinSpace (lispstrList [e2]) = lispstr e2 from rfl]
                rw [show flatTokensDataList [e2] = flatTokensData e2 ++ [] from rfl]
                rw [hih e2 (by simp) cs2 hb2]
                simp
            | cons e3 l3 =>
                rw [show joinSpace (lispstrList (e2 :: e3 :: l3))
                    = lispstr e2 ++ " " ++ joinSpace (lispstrList (e3 :: l3)) from rfl]
                rw [strData_append, strData_append]
                rw [show (" " : String).data = [' '] from rfl]
                rw [expandParens_append, expandParens_append]
                rw [show expandParens [' '] = [' '] from rfl]
                rw [List.append_assoc, List.append_assoc, List.singleton_append]
                rw [hih e2 (by simp) _ (Or.inr ⟨' ', _, rfl, rfl⟩)]
                rw [show flatTokensDataList (e2 :: e3 :: l3)
                    = flatTokensData e2 ++ flatTokensDataList (e3 :: l3) from rfl]
                rw [List.append_assoc]
                congr 1
                rw [show splitWsAux (' ' :: (expandParens
                      (joinSpace (lispstrList (e3 :: l3))).data ++ cs2)) []
                    = splitWsAux (expandParens
                      (joinSpace (lispstrList (e3 :: l3))).data ++ cs2) [] from rfl]
                exact ihl (fun e4 he4 => hih e4 (List.mem_cons_of_mem _ he4)) cs2 hb2
      rw [lispstr_list_data es]
      rw [expandParens_append]
      rw [show expandParens ('(' :: (joinSpace (lispstrList es)).data)
          = [' ', '(', ' '] ++ expandParens (joinSpace (lispstrList es)).data from rfl]
      rw [show expandParens [')'] = [' ', ')', ' '] from rfl]
      rw [List.append_assoc, List.append_assoc]
      rw [show ([' ', '(', ' '] : List Char)
            ++ (expandParens (joinSpace (lispstrList es)).data ++ ([' ', ')', ' '] ++ cs))
          = ' ' :: '(' :: ' ' :: (expandParens (joinSpace (lispstrList es)).data
            ++ ([' ', ')', ' '] ++ cs)) from rfl]
      rw [splitWs_open]
      rw [show ([' ', ')', ' '] : List Char) ++ cs = ' ' :: ')' :: ' ' :: cs from rfl]
      rw [inner es ih _ (Or.inr ⟨' ', ')' :: ' ' :: cs, rfl, rfl⟩)]
      rw [splitWs_close]
      rw [show flatTokensData (.list es)
          = ['('] :: (flatTokensDataList es ++ [[')']]) from rfl]
      simp

/-! ## C9: reader lemmas -/

theorem token_ne_parens (t : List Char) (h : ∀ c ∈ t, c ≠ '(' ∧ c ≠ ')') :
    (⟨t⟩ : String) ≠ "(" ∧ (⟨t⟩ : String) ≠ ")" := by
  constructor
  · intro he
    have hd : t = ['('] := congrArg String.data he
    exact (h '(' (by rw [hd]; simp)).1 rfl
  · intro he
    have hd : t = [')'] := congrArg String.data he
    exact (h ')' (by rw [hd]; simp)).2 rfl

theorem flatTokensData_head (e : Expression) (he : SimpleExpr e) :
    ∃ t ts, flatTokensData e = t :: ts ∧ (⟨t⟩ : String) ≠ ")" := by
  cases he with
  | int n =>
      refine ⟨(intToStr n).data, [], rfl, ?_⟩
      exact (token_ne_parens _ (fun c hc => (intToStr_chars n c hc).2)).2
  | sym s hs =>
      obtain ⟨-, hchars, -, -, -⟩ := hs
      refine ⟨s.data, [], rfl, ?_⟩
      exact (token_ne_parens _
        (fun c hc => ⟨(hchars c hc).2.1, (hchars c hc).2.2.1⟩)).2
  | list es hes =>
      exact ⟨['('], flatTokensDataList es ++ [[')']], rfl, by decide⟩

/-- Reading back the token stream of a simple expression consumes exactly
those tokens and reconstructs the expression, for any sufficient fuel. -/
theorem read_simple (e : Expression) (he : SimpleExpr e) : ∀ (fuel : Nat) (rest : List String),
    2 * (flatTokensData e).length ≤ fuel →
    read_from_tokens fuel ((flatTokensData e).map (fun cs => (⟨cs⟩ : String)) ++ rest)
      = some (.ok (e, rest)) := by
  induction he with
  | int n =>
      intro fuel rest hfuel
      have hlen : (flatTokensData (Expression.int n)).length = 1 := rfl
      rw [hlen] at hfuel
      cases fuel with
      | zero => omega
      | succ f =>
          have hne := token_ne_parens (intToStr n).data
            (fun c hc => (intToStr_chars n c hc).2)
          rw [show (flatTokensData (Expression.int n)).map (fun cs => (⟨cs⟩ : String)) ++ rest
              = intToStr n :: rest from rfl]
          rw [read_from_tokens]
          rw [if_neg hne.1, if_neg hne.2]
          rw [parse_atom_int]
  | sym s hs =>
      intro fuel rest hfuel
      have hlen : (flatTokensData (Expression.sym s)).length = 1 := rfl
      rw [hlen] at hfuel
      cases fuel with
      | zero => omega
      | succ f =>
          have hchars := hs.2.1
          have hne := token_ne_parens s.data
            (fun c hc => ⟨(hchars c hc).2.1, (hchars c hc).2.2.1⟩)
          rw [show (flatTokensData (Expression.sym s)).map (fun cs => (⟨cs⟩ : String)) ++ rest
              = (⟨s.data⟩ : String) :: rest from rfl]
          rw [read_from_tokens]
          rw [if_neg hne.1, if_neg hne.2]
          rw [show (⟨s.data⟩ : String) = s from rfl, parse_atom_sym s hs]
  | list es hes ih =>
      intro fuel rest hfuel
      have hlen : (flatTokensData (Expression.list es)).length
          = (flatTokensDataList es).length + 2 := by
        rw [show flatTokensData (Expression.list es)
            = ['('] :: (flatTokensDataList es ++ [[')']]) from rfl]
        simp
      rw [hlen] at hfuel
      have inner : ∀ (l : List Expression),
          (∀ e2 ∈ l, SimpleExpr e2) →
          (∀ e2 ∈ l, ∀ (fuel2 : Nat) (rest2 : List String),
            2 * (flatTokensData e2).length ≤ fuel2 →
            read_from_tokens fuel2
                ((flatTokensData e2).map (fun cs => (⟨cs⟩ : String)) ++ rest2)
              = some (.ok (e2, rest2))) →
          ∀ (fuel2 : Nat) (rest2 : List String),
          2 * (flatTokensDataList l).length + 1 ≤ fuel2 →
          read_list fuel2 ((flatTokensDataList l).map (fun cs => (⟨cs⟩ : String))
              ++ (")" :: rest2))
            = some (.ok (l, rest2)) := by
        intro l
        induction l with
        | nil =>
            intro _ _ fuel2 rest2 hf2
            cases fuel2 with
            | zero => omega
            | succ f2 => rfl
        | cons e2 l2 ihl =>
            intro hsim hih fuel2 rest2 hf2
            have hlen2 : (flatTokensDataList (e2 :: l2)).length
                = (flatTokensData e2).length + (flatTokensDataList l2).length := by
              rw [show flatTokensDataList (e2 :: l2)
                  = flatTokensData e2 ++ flatTokensDataList l2 from rfl]
              simp
            rw [hlen2] at hf2
            obtain ⟨t, ts, hts, htne⟩ := flatTokensData_head e2 (hsim e2 (by simp))
            have hlene2 : 1 ≤ (flatTokensData e2).length := by rw [hts]; simp
            cases fuel2 with
            | zero => omega
            | succ f2 =>
                have hsplit : (flatTokensDataList (e2 :: l2)).map (fun cs => (⟨cs⟩ : String))
                    ++ (")" :: rest2)
                    = (⟨t⟩ : String) :: ((ts.map (fun cs => (⟨cs⟩ : String)))
                        ++ ((flatTokensDataList l2).map (fun cs => (⟨cs⟩ : String))
                        ++ (")" :: rest2))) := by
                  rw [show flatTokensDataList (e2 :: l2)
                      = flatTokensData e2 ++ flatTokensDataList l2 from rfl, hts]
                  simp
                rw [hsplit, read_list, if_neg htne]
                have helem := hih e2 (by simp) f2
                  ((flatTokensDataList l2).map (fun cs => (⟨cs⟩ : String)) ++ (")" :: rest2))
                  (by omega)
                rw [show ((⟨t⟩ : String) :: (ts.map (fun cs => (⟨cs⟩ : String))
                    ++ ((flatTokensDataList l2).map (fun cs => (⟨cs⟩ : String))
                      ++ (")" :: rest2))))
                    = (flatTokensData e2).map (fun cs => (⟨cs⟩ : String))
                      ++ ((flatTokensDataList l2).map (fun cs => (⟨cs⟩ : String))
                      ++ (")" :: rest2)) from by rw [hts]; simp] at *
                rw [helem, bindE_ok]
                rw [ihl (fun e3 h3 => hsim e3 (List.mem_cons_of_mem _ h3))
                  (fun e3 h3 => hih e3 (List.mem_cons_of_mem _ h3)) f2 rest2 (by omega)]
                rfl
      cases fuel with
      | zero => omega
      | succ f =>
          have hsplit : (flatTokensData (Expression.list es)).map (fun cs => (⟨cs⟩ : String))
              ++ rest
              = "(" :: ((flatTokensDataList es).map (fun cs => (⟨cs⟩ : String))
                  ++ (")" :: rest)) := by
            rw [show flatTokensData (Expression.list es)
                = ['('] :: (flatTokensDataList es ++ [[')']]) from rfl]
            simp
          rw [hsplit, read_from_tokens, if_pos rfl]
          rw [inner es hes ih f rest (by omega)]
          rfl

/-- Tokenizing the canonical rendering of a simple expression yields its token
stream. -/
theorem tokenize_lispstr (e : Expression) (he : SimpleExpr e) :
    tokenize (lispstr e) = (flatTokensData e).map (fun cs => (⟨cs⟩ : String)) := by
  rw [tokenize]
  have hsplit := lispstr_split e he [] (Or.inl rfl)
  rw [List.append_nil] at hsplit
  rw [hsplit]
  simp [splitWsAux]

/-- C9: for every simple canonical source string — the canonical rendering
`lispstr e` of a simple expression `e` (integer atoms and printable-ASCII
symbol tokens), whose tokens are separated by single spaces with no leading
or trailing whitespace — parsing recovers the expression exactly, so
`lispstr (parse s) = s` with no whitespace change needed; in particular
`"(+ 1 2)"` round-trips exactly. -/
theorem c9_round_trip :
    (∀ e, SimpleExpr e → parse (lispstr e) = .ok e) ∧
    (∀ e, SimpleExpr e → (parse (lispstr e)).map lispstr = .ok (lispstr e)) ∧
    (parse "(+ 1 2)" = .ok (.list [.sym "+", .int 1, .int 2])) ∧
    (lispstr (.list [.sym "+", .int 1, .int 2]) = "(+ 1 2)") := by
  have main : ∀ e, SimpleExpr e → parse (lispstr e) = .ok e := by
    intro e he
    have htok := tokenize_lispstr e he
    have hread := read_simple e he
      (2 * ((flatTokensData e).map (fun cs => (⟨cs⟩ : String))).length + 2) []
      (by rw [List.length_map]; omega)
    rw [List.append_nil] at hread
    show (match read_from_tokens (2 * (tokenize (lispstr e)).length + 2)
          (tokenize (lispstr e)) with
      | some (.ok (e2, _)) => Except.ok e2
      | some (.error er) => Except.error er
      | Option.none => Except.error Err.unexpectedEndOfSource) = .ok e
    rw [htok, hread]
  exact ⟨main, fun e he => by rw [main e he]; rfl, rfl, rfl⟩

/-- Witness for C9 at the expression rendered as `"(+ 1 2)"`. -/
theorem c9_witness :
    parse (lispstr (.list [.sym "+", .int 1, .int 2]))
      = .ok (.list [.sym "+", .int 1, .int 2]) := by
  apply c9_round_trip.1
  apply SimpleExpr.list
  intro e2 he2
  simp only [List.mem_cons, List.not_mem_nil, or_false] at he2
  rcases he2 with h | h | h <;> subst h
  · exact SimpleExpr.sym "+" (by decide)
  · exact SimpleExpr.int 1
  · exact SimpleExpr.int 2

/-! ## Fuel sufficiency for the reader

The artificial fuel in `read_from_tokens`/`read_list` can never be exhausted
with the budget `parse` provides: every two recursion levels consume at least
one token.  This closes the modelling loophole of the unreachable fuel-out
fallback in `parse`. -/

mutual
theorem read_from_tokens_fuel : ∀ (fuel : Nat) (toks : List String),
    2 * toks.length < fuel →
    read_from_tokens fuel toks ≠ Option.none ∧
    ∀ e r2, read_from_tokens fuel toks = some (.ok (e, r2)) →
      r2.length < toks.length
  | 0, toks, h => by omega
  | fuel + 1, [], _ => by
      refine ⟨by rw [read_from_tokens]; simp, ?_⟩
      intro e r2 heq
      rw [read_from_tokens] at heq
      cases heq
  | fuel + 1, tok :: rest, h => by
      simp only [List.length_cons] at h
      rw [read_from_tokens]
      by_cases h1 : tok = "("
      · rw [if_pos h1]
        obtain ⟨hq1, hq2⟩ := read_list_fuel fuel rest (by omega)
        cases hr : read_list fuel rest with
        | none => exact absurd hr hq1
        | some r =>
            cases r with
            | error er =>
                refine ⟨by simp [bindE], ?_⟩
                intro e r2 heq
                simp [bindE] at heq
            | ok p =>
                obtain ⟨es, r2⟩ := p
                refine ⟨by simp [bindE], ?_⟩
                intro e r3 heq
                simp only [bindE, Option.some.injEq] at heq
                obtain ⟨-, hr3⟩ := Prod.mk.inj (Except.ok.inj heq)
                rw [← hr3]
                have := hq2 es r2 hr
                simp only [List.length_cons]
                omega
      · rw [if_neg h1]
        by_cases h2 : tok = ")"
        · rw [if_pos h2]
          refine ⟨by simp, ?_⟩
          intro e r2 heq
          cases heq
        · rw [if_neg h2]
          refine ⟨by simp, ?_⟩
          intro e r2 heq
          obtain ⟨-, hr2⟩ := Prod.mk.inj (Except.ok.inj (Option.some.inj heq))
          rw [← hr2]
          simp

theorem read_list_fuel : ∀ (fuel : Nat) (toks : List String),
    2 * toks.length + 2 ≤ fuel →
    read_list fuel toks ≠ Option.none ∧
    ∀ es r2, read_list fuel toks = some (.ok (es, r2)) →
      r2.length < toks.length + 1
  | 0, toks, h => by omega
  | fuel + 1, [], _ => by
      refine ⟨by rw [read_list]; simp, ?_⟩
      intro es r2 heq
      rw [read_list] at heq
      cases heq
  | fuel + 1, tok :: rest, h => by
      simp only [List.length_cons] at h
      rw [read_list]
      by_cases h1 : tok = ")"
      · rw [if_pos h1]
        refine ⟨by simp, ?_⟩
        intro es r2 heq
        obtain ⟨-, hr2⟩ := Prod.mk.inj (Except.ok.inj (Option.some.inj heq))
        rw [← hr2]
        simp only [List.length_cons]
        omega
      · rw [if_neg h1]
        obtain ⟨hp1, hp2⟩ := read_from_tokens_fuel fuel (tok :: rest)
          (by simp only [List.length_cons]; omega)
        cases hr : read_from_tokens fuel (tok :: rest) with
        | none => exact absurd hr hp1
        | some r =>
            cases r with
            | error er =>
                refine ⟨by simp [bindE, hr], ?_⟩
                intro es r2 heq
                simp [bindE, hr] at heq
            | ok p =>
                obtain ⟨e, r2⟩ := p
                have hcons : r2.length < rest.length + 1 := by
                  simpa using hp2 e r2 hr
                obtain ⟨hq1, hq2⟩ := read_list_fuel fuel r2 (by omega)
                cases hs : read_list fuel r2 with
                | none => exact absurd hs hq1
                | some r' =>
                    cases r' with
                    | error er =>
                        refine ⟨by simp [bindE, hr, hs], ?_⟩
                        intro es r3 heq
                        simp [bindE, hr, hs] at heq
                    | ok q =>
                        obtain ⟨es2, r3⟩ := q
                        refine ⟨by simp [bindE, hr, hs], ?_⟩
                        intro es r4 heq
                        simp only [bindE, hr, hs, Option.some.injEq] at heq
                        obtain ⟨-, hr4⟩ := Prod.mk.inj (Except.ok.inj heq)
                        rw [← hr4]
                        have := hq2 es2 r3 hs
                        simp only [List.length_cons]
                        omega
end

/-- The fuel `parse` passes to the reader is always sufficient: the fuel-out
fallback branch of `parse` is unreachable. -/
theorem parse_fuel_sufficient (s : String) :
    read_from_tokens (2 * (tokenize s).length + 2) (tokenize s) ≠ Option.none :=
  (read_from_tokens_fuel _ _ (by omega)).1
